import Mathlib

/-!
# MediTrack - verification of the persistence and domain-model layer

Shallow embedding of the MediTrack patient tracker (C++ sources
`meditrack_ver_2.cpp`, `mediTrack_ver_3.cpp`, `DatabaseManager.cpp`).

Modelling conventions:
* C++ `double` values (weights, blood sugar, BMI) are modelled as exact
  rationals `ℚ`.  Stream output of a double models the default `ostream`
  settings (`defaultfloat`, precision 6, i.e. `%g`): the value is rounded
  to six significant decimal digits, printed in fixed notation when its
  decimal exponent lies in `[-4, 6)` and in scientific notation otherwise,
  with trailing fraction zeros stripped (`doubleChars`).  Rounding of the
  exact value is half-to-even; the C library rounds the underlying binary
  value instead, but the tie rule cannot affect the predicate
  `round6 v = v` used in the well-formedness hypotheses, since a value at
  a tie already needs seven significant digits and is altered either way.
  `istream` numeric extraction accepts sign, digits, optional fraction and
  optional exponent (a numeral starting with the decimal point is not
  modelled; the writer never emits one).
* `time_t` timestamps are modelled as `Int`.
* The flat file is a `List Char`; `std::ifstream` is modelled by the `IS`
  structure which carries the buffer together with the sticky fail bit, so
  that extraction after a failure behaves as in iostreams (C++11 semantics:
  a failed numeric extraction stores `0`).
* `std::cout` reporting inside `loadData` is modelled by the `Msg` trace.
* The SQLite database is modelled as four tables (lists of rows) plus the
  `AUTOINCREMENT` counter, which `DELETE FROM patients` does not reset.
-/

namespace MediTrack

/-! # Definitions -/

/-! ## Character and numeral primitives -/

/-- Whitespace recognised by `istream` formatted extraction. -/
def isWs (c : Char) : Bool := c = ' ' || c = '\n' || c = '\t' || c = '\r'

/-- ASCII decimal digit test (same set as `isdigit` in the "C" locale). -/
def isDigitC (c : Char) : Bool := decide (48 ≤ c.toNat) && decide (c.toNat ≤ 57)

/-- Digit character for a value `0 ≤ d ≤ 9`. -/
def digitChar (d : ℕ) : Char := Char.ofNat (48 + d)

/-- Decimal digits of a natural number, most significant first.
`fuel` dominates the recursion depth; `natChars` supplies enough. -/

def natCharsAux : ℕ → ℕ → List Char
  | 0, _ => []
  | fuel + 1, n =>
    if n < 10 then [digitChar n]
    else natCharsAux fuel (n / 10) ++ [digitChar (n % 10)]

/-- Decimal representation of a natural number (as `operator<<` prints it). -/
def natChars (n : ℕ) : List Char := natCharsAux (n + 1) n

/-- Decimal representation of an integer (as `operator<<` prints it). -/
def intChars (z : ℤ) : List Char :=
  if z < 0 then '-' :: natChars z.natAbs else natChars z.natAbs

/-- Numeric value of a digit string (no sign), as accumulated left to right. -/
def charsVal (cs : List Char) : ℕ := cs.foldl (fun a c => 10 * a + (c.toNat - 48)) 0

/-- Splits off the longest prefix satisfying `p`. -/
def spanP (p : Char → Bool) : List Char → List Char × List Char
  | [] => ([], [])
  | c :: cs =>
    if p c then (c :: (spanP p cs).1, (spanP p cs).2) else ([], c :: cs)

/-- Drops leading whitespace, as formatted extraction does. -/
def dropWs : List Char → List Char
  | [] => []
  | c :: cs => if isWs c then dropWs cs else c :: cs

/-! ## Stream parsing primitives -/

/-- Optional leading sign, as numeric extraction consumes it. -/
def parseSign (cs : List Char) : Bool × List Char :=
  if cs.head? = some '-' then (true, cs.tail)
  else if cs.head? = some '+' then (false, cs.tail)
  else (false, cs)

/-- Model of `istream` integer extraction on a raw buffer: skip whitespace, optional
sign, then a non-empty digit run; `none` models a failed extraction. -/

def parseIntCore (cs : List Char) : Option (Int × List Char) :=
  let s := parseSign (dropWs cs)
  let r := spanP isDigitC s.2
  if r.1.isEmpty then none
  else some (if s.1 then -(charsVal r.1 : Int) else (charsVal r.1 : Int), r.2)

/-- Exponent suffix of `istream` double extraction: `e` or `E`, an optional
sign, then digits.  An absent suffix leaves the mantissa value; a bare `e`
with no digit after the optional sign fails the whole extraction (the
accumulated field does not convert). -/

def parseExp (bv : ℚ) (cs : List Char) : Option (ℚ × List Char) :=
  if cs.head? = some 'e' ∨ cs.head? = some 'E' then
    let s := parseSign cs.tail
    let r := spanP isDigitC s.2
    if r.1.isEmpty then none
    else some ((if s.1 then bv / (10 : ℚ) ^ charsVal r.1
                else bv * (10 : ℚ) ^ charsVal r.1), r.2)
  else some (bv, cs)

/-- Double extraction after the sign has been consumed: a non-empty digit
run, an optional point with fraction digits, and an optional exponent. -/

def parseAfterSign (neg : Bool) (cs : List Char) : Option (ℚ × List Char) :=
  let r := spanP isDigitC cs
  if r.1.isEmpty then none
  else
    let sgn : ℚ := if neg then -1 else 1
    if r.2.head? = some '.' then
      let f := spanP isDigitC r.2.tail
      parseExp (sgn * ((charsVal r.1 * 10 ^ f.1.length + charsVal f.1 : ℕ) : ℚ)
        / 10 ^ f.1.length) f.2
    else
      parseExp (sgn * (charsVal r.1 : ℚ)) r.2

/-- Model of `istream` double extraction on a raw buffer: whitespace, sign,
then the unsigned numeral (a numeral starting with the decimal point is not
modelled; the writer never emits one). -/

def parseRatCore (cs : List Char) : Option (ℚ × List Char) :=
  let s := parseSign (dropWs cs)
  parseAfterSign s.1 s.2

/-- Body of `std::getline`: characters before the first newline, and the rest
after it (the newline is consumed; at end of file the whole buffer is the
line). -/

def lineSplit : List Char → List Char × List Char
  | [] => ([], [])
  | c :: cs =>
    if c = '\n' then ([], cs)
    else (c :: (lineSplit cs).1, (lineSplit cs).2)

/-- Characters before and after the first `'|'` (`string::find('|')` plus the
two `substr` halves); `none` when the line has no pipe. -/

def splitPipe : List Char → Option (List Char × List Char)
  | [] => none
  | c :: cs =>
    if c = '|' then some ([], cs)
    else (splitPipe cs).map (fun r => (c :: r.1, r.2))

/-- Field extraction used for the medication and reminder lines
(`find('|')`/`substr` with no format check).  The degenerate cases mirror
C++ `size_t` arithmetic: with no pipe, `pos1 = npos` and all three `substr`
calls yield the whole line (`npos + 1` wraps to `0`); with one pipe, the
third field `substr(pos2 + 1)` wraps to the whole line as well. -/

def parse3 (line : List Char) : String × String × String :=
  match splitPipe line with
  | none => (⟨line⟩, ⟨line⟩, ⟨line⟩)
  | some (f1, r1) =>
    match splitPipe r1 with
    | none => (⟨f1⟩, ⟨r1⟩, ⟨line⟩)
    | some (f2, r2) => (⟨f1⟩, ⟨f2⟩, ⟨r2⟩)

/-- Patient header parsing: unlike the medication and reminder lines, both
pipe positions are checked (`pos1 == npos || pos2 == npos` aborts the load).
Returns name, the raw age field, and contact. -/

def parseHeader (line : List Char) : Option (String × List Char × String) :=
  match splitPipe line with
  | none => none
  | some (f1, r1) =>
    match splitPipe r1 with
    | none => none
    | some (f2, r2) => some (⟨f1⟩, f2, ⟨r2⟩)

/-- Model of `std::stoi`: skips whitespace, optional sign, then digits; `none` models
the `std::invalid_argument` exception thrown when no conversion is
possible. -/

def stoi (cs : List Char) : Option Int := (parseIntCore cs).map (·.1)

/-! ## Default-precision printing of double values -/

/-- Count of decimal digits of a natural number. -/
def natLen (n : ℕ) : ℕ := (natChars n).length

/-- Decides `10 ^ X ≤ a / b` for naturals `a`, `b ≥ 1` and an integer
exponent `X`. -/

def pow10Le (X : ℤ) (a b : ℕ) : Bool :=
  if 0 ≤ X then decide (b * 10 ^ X.toNat ≤ a) else decide (b ≤ a * 10 ^ (-X).toNat)

/-- Decimal exponent of `a / b` for `a, b ≥ 1`: the unique `X` with
`10 ^ X ≤ a / b < 10 ^ (X + 1)`. -/

def qExp (a b : ℕ) : ℤ :=
  let X0 : ℤ := (natLen a : ℤ) - (natLen b : ℤ)
  if pow10Le X0 a b then X0 else X0 - 1

/-- Division of naturals rounded to the nearest integer, ties to even (the
rounding applied when a double is cut to the output precision). -/

def rdiv (p q : ℕ) : ℕ :=
  if 2 * (p % q) < q then p / q
  else if q < 2 * (p % q) then p / q + 1
  else p / q + p / q % 2

/-- Mantissa and decimal exponent of a nonzero rational at six significant
digits (`%g` at the default precision): `n` is `|v| / 10 ^ (X - 5)`
rounded to an integer and `X` the decimal exponent of the rounded value
(one larger than that of `|v|` when rounding carries into a seventh
digit). -/

def mant6 (v : ℚ) : ℕ × ℤ :=
  let a := v.num.natAbs
  let b := v.den
  let X := qExp a b
  let n0 := if 0 ≤ X - 5 then rdiv a (b * 10 ^ (X - 5).toNat)
            else rdiv (a * 10 ^ (5 - X).toNat) b
  if n0 = 10 ^ 6 then (10 ^ 5, X + 1) else (n0, X)

/-- The value `n * 10 ^ (X - 5)` denoted by a six-digit mantissa `n` with
decimal exponent `X`. -/

def sig6Val (n : ℕ) (X : ℤ) : ℚ :=
  if 0 ≤ X - 5 then ((n * 10 ^ (X - 5).toNat : ℕ) : ℚ)
  else (n : ℚ) / ((10 ^ (5 - X).toNat : ℕ) : ℚ)

/-- The value a double prints as at the default `ostream` precision: the
input rounded to six significant decimal digits.  A double survives the
flat save/load round trip exactly when `round6` fixes its value. -/

def round6 (v : ℚ) : ℚ :=
  if v = 0 then 0
  else if v < 0 then -sig6Val (mant6 v).1 (mant6 v).2
  else sig6Val (mant6 v).1 (mant6 v).2

/-- Removal of trailing `'0'` characters (`%g` strips the trailing zeros
of the fraction). -/

def stripZeros (ds : List Char) : List Char :=
  (ds.reverse.dropWhile (fun c => c = '0')).reverse

/-- Unsigned text printed for a six-digit mantissa `n` with decimal
exponent `X`: fixed notation for `-4 ≤ X < 6` (`5 - X` fraction digits,
trailing zeros stripped, no point when no fraction digit survives),
scientific notation otherwise (`d.ddddd` stripped the same way, then `e`,
the exponent sign and at least two exponent digits). -/

def mantissaBody (n : ℕ) (X : ℤ) : List Char :=
  if -4 ≤ X ∧ X < 6 then
    if 0 ≤ X then
      (natChars n).take (X.toNat + 1) ++
        (if (stripZeros ((natChars n).drop (X.toNat + 1))).isEmpty then []
         else '.' :: stripZeros ((natChars n).drop (X.toNat + 1)))
    else
      '0' :: '.' :: stripZeros (List.replicate ((-X).toNat - 1) '0' ++ natChars n)
  else
    ((natChars n).take 1 ++
      (if (stripZeros (natChars n).tail).isEmpty then []
       else '.' :: stripZeros (natChars n).tail)) ++
      'e' :: (if X < 0 then '-' else '+') ::
        (if natLen X.natAbs < 2 then '0' :: natChars X.natAbs else natChars X.natAbs)

/-- Output of `operator<<` for a double at the default `std::ostream`
settings (`defaultfloat`, precision 6, equivalent to `%g`): what
`WeightRecord::save` and `BloodSugarRecord::save` write for their double
field. -/

def doubleChars (v : ℚ) : List Char :=
  if v = 0 then ['0']
  else if v < 0 then '-' :: mantissaBody (mant6 v).1 (mant6 v).2
  else mantissaBody (mant6 v).1 (mant6 v).2

/-! ## Domain model -/

/-- Closed variant of the `HealthRecord` hierarchy (`BloodPressureRecord`,
`WeightRecord`, `BloodSugarRecord`), each carrying its `timestamp`. -/

inductive HealthRecord where
  | bp (systolic diastolic : ℤ) (timestamp : ℤ)
  | weight (weight : ℚ) (timestamp : ℤ)
  | sugar (sugar : ℚ) (timestamp : ℤ)
deriving DecidableEq, Repr

/-- Flat value record `Medication`: three free-text fields. -/
structure Medication where
  name : String
  dosage : String
  schedule : String
deriving DecidableEq, Repr

/-- Flat value record `Reminder`: message plus date and time strings. -/
structure Reminder where
  message : String
  date : String
  time : String
deriving DecidableEq, Repr

/-- Aggregate `Patient`: profile fields plus the three owned, append-only
collections. -/

structure Patient where
  name : String
  age : ℤ
  contactInfo : String
  records : List HealthRecord
  medications : List Medication
  reminders : List Reminder
deriving DecidableEq, Repr

/-- Model of `std::string` `operator<`: lexicographic comparison of the character
sequences. -/

def strLtB : List Char → List Char → Bool
  | [], [] => false
  | [], _ :: _ => true
  | _ :: _, [] => false
  | a :: as, b :: bs => if a < b then true else if b < a then false else strLtB as bs

/-- Model of `std::string` `operator<=`, i.e. `!(b < a)`. -/
def strLeB (a b : List Char) : Bool := !(strLtB b a)

/-- Model of `Reminder::isDue`.  The current instant is passed as the two formatted
strings the C++ builds with `sprintf` from `localtime(time(0))`
(`"%04d-%02d-%02d"` and `"%02d:%02d"`); `==` and `<=` are the
`std::string` lexicographic comparisons. -/

def Reminder.isDue (r : Reminder) (todayDate currentTime : String) : Bool :=
  r.date == todayDate && strLeB r.time.data currentTime.data

/-- Alert tiers printed by the `display` overrides. -/
inductive Alert where
  | high
  | low
  | normal
deriving DecidableEq, Repr

/-- Alert tier of `BloodPressureRecord::display`. -/
def bpAlert (systolic diastolic : ℤ) : Alert :=
  if systolic ≥ 140 ∨ diastolic ≥ 90 then .high
  else if systolic ≤ 90 ∨ diastolic ≤ 60 then .low
  else .normal

/-- Alert tier of `BloodSugarRecord::display`. -/
def sugarAlert (sugar : ℚ) : Alert :=
  if sugar ≥ 126 then .high
  else if sugar < 70 then .low
  else .normal

/-- Alert summary per record kind; `WeightRecord::display` prints none. -/
def recordAlert : HealthRecord → Option Alert
  | .bp s d _ => some (bpAlert s d)
  | .weight _ _ => none
  | .sugar v _ => some (sugarAlert v)

/-- Kind test mirroring `dynamic_cast<WeightRecord*>`. -/
def HealthRecord.isWeight : HealthRecord → Bool
  | .weight _ _ => true
  | _ => false

/-- Value of the first `WeightRecord` in the given order, `0.0` when none
(the initial value of `lastWeight`). -/

def firstWeightVal : List HealthRecord → ℚ
  | [] => 0
  | .weight w _ :: _ => w
  | _ :: rest => firstWeightVal rest

/-- The reverse-iterator scan in `calculateAndDisplayBMI`. -/
def lastWeight (records : List HealthRecord) : ℚ := firstWeightVal records.reverse

/-- Outcome of `Patient::calculateAndDisplayBMI`. -/
inductive BMIResult where
  | noWeight
  | invalidHeight
  | ok (bmi : ℚ) (category : String)
deriving DecidableEq, Repr

/-- Category chain at the end of `calculateAndDisplayBMI`. -/
def bmiCategory (bmi : ℚ) : String :=
  if bmi < 18.5 then "Underweight"
  else if bmi < 25 then "Normal weight"
  else if bmi < 30 then "Overweight"
  else "Obesity"

/-- Model of `Patient::calculateAndDisplayBMI` (identical in both program versions)
as a function of the records and the entered height; a failed `cin` read of
the height takes the same reported branch as a non-positive height. -/

def calculateAndDisplayBMI (records : List HealthRecord) (heightMeters : ℚ) : BMIResult :=
  let lastW := lastWeight records
  if lastW ≤ 0 then .noWeight
  else if heightMeters ≤ 0 then .invalidHeight
  else .ok (lastW / (heightMeters * heightMeters))
        (bmiCategory (lastW / (heightMeters * heightMeters)))

/-! ## Flat-file writer (`saveData` and the `save` overrides) -/

/-- Line written by `Medication::save`. -/
def medChars (m : Medication) : List Char :=
  m.name.data ++ '|' :: m.dosage.data ++ '|' :: m.schedule.data ++ ['\n']

/-- Line written by `Reminder::save`. -/
def remChars (r : Reminder) : List Char :=
  r.message.data ++ '|' :: r.date.data ++ '|' :: r.time.data ++ ['\n']

/-- The `save` overrides of the three record classes (`getType()` tags
`"BP"`, `"Weight"`, `"Sugar"`; fields separated by single spaces). -/

def recordChars : HealthRecord → List Char
  | .bp s d t =>
      "BP".data ++ ' ' :: intChars s ++ ' ' :: intChars d ++ ' ' :: intChars t ++ ['\n']
  | .weight w t =>
      "Weight".data ++ ' ' :: doubleChars w ++ ' ' :: intChars t ++ ['\n']
  | .sugar v t =>
      "Sugar".data ++ ' ' :: doubleChars v ++ ' ' :: intChars t ++ ['\n']

/-- One patient's block inside `saveData`. -/
def patientBlock (p : Patient) : List Char :=
  p.name.data ++ '|' :: intChars p.age ++ '|' :: p.contactInfo.data ++ '\n' ::
  (natChars p.records.length ++ '\n' ::
   ((p.records.map recordChars).flatten ++
    natChars p.medications.length ++ '\n' ::
    ((p.medications.map medChars).flatten ++
     natChars p.reminders.length ++ '\n' ::
     (p.reminders.map remChars).flatten)))

/-- Model of `saveData`: the exact character stream written to the (truncated)
file. -/

def saveData (patients : List Patient) : List Char :=
  natChars patients.length ++ '\n' :: (patients.map patientBlock).flatten

/-! ## Input stream model and `loadData` -/

/-- An `std::ifstream` that is open: remaining buffer plus the sticky fail
state. -/

structure IS where
  buf : List Char
  fail : Bool
deriving DecidableEq, Repr

/-- Extraction `file >> (int)`: C++11 stores `0` and sets the fail bit on failure; the
caller sees failure via the stream conversion. -/

def IS.readInt (s : IS) : Option ℤ × IS :=
  if s.fail then (none, s)
  else match parseIntCore s.buf with
    | some r => (some r.1, ⟨r.2, false⟩)
    | none => (none, ⟨s.buf, true⟩)

/-- Extraction `file >> (double)`. -/
def IS.readRat (s : IS) : Option ℚ × IS :=
  if s.fail then (none, s)
  else match parseRatCore s.buf with
    | some r => (some r.1, ⟨r.2, false⟩)
    | none => (none, ⟨s.buf, true⟩)

/-- Extraction `file >> (std::string)`: a whitespace-delimited token; fails (leaving
the cleared string) only when no token characters are available. -/

def IS.readToken (s : IS) : String × IS :=
  if s.fail then ("", s)
  else
    let r := spanP (fun c => !(isWs c)) (dropWs s.buf)
    if r.1.isEmpty then ("", ⟨s.buf, true⟩) else (⟨r.1⟩, ⟨r.2, false⟩)

/-- Stream call `std::getline`: fails when no character can be extracted, else yields
the line up to (and consuming) the newline. -/

def IS.getLine (s : IS) : Option (List Char) × IS :=
  if s.fail then (none, s)
  else match s.buf with
    | [] => (none, ⟨[], true⟩)
    | c :: cs => (some (lineSplit (c :: cs)).1, ⟨(lineSplit (c :: cs)).2, false⟩)

/-- Stream call `file.ignore()`: consumes one character (no effect on a failed
stream). -/

def IS.ignore (s : IS) : IS :=
  if s.fail then s else ⟨s.buf.tail, s.fail⟩

/-- Console reports of `loadData`, in emission order.  Each constructor is
one `cout` line of the source; `loadedOk` is the final
"Data loaded successfully" message, printed after the loop even when a
`break` ended it early. -/

inductive Msg where
  | noPreviousData
  | badPatientCount
  | unreasonableCount (n : ℤ)
  | errPatientLine
  | errPatientParse
  | errRecordCount
  | errMedCount
  | errRemCount
  | loadedOk
deriving DecidableEq, Repr

/-- Observable outcome of `loadData`: the final state of the caller's
vector, the console trace, and whether an exception escaped (`stoi`). -/

structure LoadOutcome where
  patients : List Patient
  msgs : List Msg
  threw : Bool
deriving DecidableEq, Repr

/-- The record-reading loop of `loadData`.  The type tag is extracted
unchecked; inside a matched branch the numeric extractions are unchecked
too, so C++11 failure semantics appends a record built from zeroes.  An
unmatched tag (including the empty token after a failed read) appends
nothing.  Each iteration ends with `file.ignore()`. -/

def recLoop : ℕ → IS → List HealthRecord → List HealthRecord × IS
  | 0, s, acc => (acc, s)
  | fuel + 1, s0, acc =>
    let t := s0.readToken
    if t.1 = "BP" then
      let a := t.2.readInt
      let b := a.2.readInt
      let c := b.2.readInt
      recLoop fuel (c.2.ignore) (acc ++ [.bp (a.1.getD 0) (b.1.getD 0) (c.1.getD 0)])
    else if t.1 = "Weight" then
      let a := t.2.readRat
      let b := a.2.readInt
      recLoop fuel (b.2.ignore) (acc ++ [.weight (a.1.getD 0) (b.1.getD 0)])
    else if t.1 = "Sugar" then
      let a := t.2.readRat
      let b := a.2.readInt
      recLoop fuel (b.2.ignore) (acc ++ [.sugar (a.1.getD 0) (b.1.getD 0)])
    else recLoop fuel t.2.ignore acc

/-- The medication-reading loop: `getline` and the pipe positions are both
unchecked (a failed `getline` leaves the cleared string). -/

def medLoop : ℕ → IS → List Medication → List Medication × IS
  | 0, s, acc => (acc, s)
  | fuel + 1, s0, acc =>
    let g := s0.getLine
    let f := parse3 (g.1.getD [])
    medLoop fuel g.2 (acc ++ [⟨f.1, f.2.1, f.2.2⟩])

/-- The reminder-reading loop, same shape as `medLoop`. -/
def remLoop : ℕ → IS → List Reminder → List Reminder × IS
  | 0, s, acc => (acc, s)
  | fuel + 1, s0, acc =>
    let g := s0.getLine
    let f := parse3 (g.1.getD [])
    remLoop fuel g.2 (acc ++ [⟨f.1, f.2.1, f.2.2⟩])

/-- The per-patient loop of `loadData`.  A failed `getline`, a header with
a missing pipe, or a failed count extraction `break`s (discarding the
partially built patient, then still printing the success message); a
header whose age field has no digits makes `stoi` throw
`std::invalid_argument`, which escapes `loadData`. -/

def loadLoop : ℕ → IS → List Patient → List Msg → LoadOutcome
  | 0, _, acc, msgs => ⟨acc, msgs ++ [.loadedOk], false⟩
  | fuel + 1, s0, acc, msgs =>
    match (s0.getLine).1, (s0.getLine).2 with
    | none, _ => ⟨acc, msgs ++ [.errPatientLine, .loadedOk], false⟩
    | some line, s1 =>
      match parseHeader line with
      | none => ⟨acc, msgs ++ [.errPatientParse, .loadedOk], false⟩
      | some (name, ageChars, contact) =>
        match stoi ageChars with
        | none => ⟨acc, msgs, true⟩
        | some age =>
          let rc := s1.readInt
          match rc.1 with
          | none => ⟨acc, msgs ++ [.errRecordCount, .loadedOk], false⟩
          | some recordCount =>
            let recs := recLoop recordCount.toNat (rc.2.ignore) []
            let mc := recs.2.readInt
            match mc.1 with
            | none => ⟨acc, msgs ++ [.errMedCount, .loadedOk], false⟩
            | some medCount =>
              let meds := medLoop medCount.toNat (mc.2.ignore) []
              let remc := meds.2.readInt
              match remc.1 with
              | none => ⟨acc, msgs ++ [.errRemCount, .loadedOk], false⟩
              | some remCount =>
                let rems := remLoop remCount.toNat (remc.2.ignore) []
                loadLoop fuel rems.2
                  (acc ++ [⟨name, age, contact, recs.1, meds.1, rems.1⟩]) msgs

/-- Model of `loadData`.  `none` models a file that cannot be opened (no previous
data); note the caller's vector is appended to, never cleared.  The patient
count is validated (readable, `0 ≤ n ≤ 10000`) before the loop. -/

def loadData (file : Option (List Char)) (patients : List Patient) : LoadOutcome :=
  match file with
  | none => ⟨patients, [.noPreviousData], false⟩
  | some cs =>
    let pc := (IS.mk cs false).readInt
    match pc.1 with
    | none => ⟨patients, [.badPatientCount], false⟩
    | some n =>
      if n < 0 ∨ n > 10000 then ⟨patients, [.unreasonableCount n], false⟩
      else loadLoop n.toNat (pc.2.ignore) patients []

/-- The record that reading back a written record line yields: double
fields come back as their printed six-significant-digit value. -/

def readBackRecord : HealthRecord → HealthRecord
  | .bp s d t => .bp s d t
  | .weight w t => .weight (round6 w) t
  | .sugar v t => .sugar (round6 v) t

/-- The patient that reading back a written patient block yields. -/
def readBackPatient (p : Patient) : Patient :=
  { p with records := p.records.map readBackRecord }

/-! ## Well-formedness for the flat format -/

/-- A text field safe for the flat format: it contains neither the field
separator nor a line terminator (the format reserves `'|'`, and a newline
would break the line structure). -/

def WFStr (s : String) : Prop := '|' ∉ s.data ∧ '\n' ∉ s.data

/-- Numeric well-formedness of a record for the flat format: the double
fields survive the writer's six-significant-digit default formatting
exactly. -/

def WFRecord : HealthRecord → Prop
  | .bp _ _ _ => True
  | .weight w _ => round6 w = w
  | .sugar v _ => round6 v = v

/-- A patient whose text fields respect the flat format. -/
def WFPatientText (p : Patient) : Prop :=
  WFStr p.name ∧ WFStr p.contactInfo ∧
  (∀ m ∈ p.medications, WFStr m.name ∧ WFStr m.dosage ∧ WFStr m.schedule) ∧
  (∀ r ∈ p.reminders, WFStr r.message ∧ WFStr r.date ∧ WFStr r.time)

/-- A patient the flat format stores faithfully: safe text fields and
exactly-printed double values. -/

def WFPatient (p : Patient) : Prop :=
  WFPatientText p ∧ ∀ r ∈ p.records, WFRecord r

/-- A collection of patients fit for the flat format. -/
def WFCollection (ps : List Patient) : Prop := ∀ p ∈ ps, WFPatient p

instance (s : String) : Decidable (WFStr s) := by
  unfold WFStr
  infer_instance

instance : (r : HealthRecord) → Decidable (WFRecord r)
  | .bp _ _ _ => .isTrue trivial
  | .weight _ _ => inferInstanceAs (Decidable (_ = _))
  | .sugar _ _ => inferInstanceAs (Decidable (_ = _))

instance (p : Patient) : Decidable (WFPatientText p) := by
  unfold WFPatientText
  infer_instance

instance (p : Patient) : Decidable (WFPatient p) := by
  unfold WFPatient
  infer_instance

instance (ps : List Patient) : Decidable (WFCollection ps) := by
  unfold WFCollection
  infer_instance

/-! ## Relational backend (`DatabaseManager` over SQLite) -/

/-- Row of the `patients` table. -/
structure PatientRow where
  id : ℤ
  name : String
  age : ℤ
  contact : String
deriving DecidableEq, Repr

/-- Row of `health_records`; `value2` stays NULL for single-value kinds and
`sqlite3_column_double` reads NULL back as `0.0`. -/

structure RecordRow where
  patient_id : ℤ
  type : String
  value1 : ℚ
  value2 : ℚ
  timestamp : ℤ
deriving DecidableEq, Repr

/-- Row of `medications`. -/
structure MedRow where
  patient_id : ℤ
  name : String
  dosage : String
  schedule : String
deriving DecidableEq, Repr

/-- Row of `reminders`. -/
structure RemRow where
  patient_id : ℤ
  message : String
  date : String
  time : String
deriving DecidableEq, Repr

/-- Database state: the four tables, rows in rowid (insertion) order — the
order an unordered `SELECT` scan returns — plus the `AUTOINCREMENT`
counter for `patients.id`, which `DELETE FROM patients` does not reset. -/

structure DB where
  nextId : ℤ
  patients : List PatientRow
  health_records : List RecordRow
  medications : List MedRow
  reminders : List RemRow
deriving DecidableEq, Repr

/-- The `health_records` row bound for one record in `saveAllPatients`
(integers pass through `sqlite3_bind_double`). -/

def recordRow (pid : ℤ) : HealthRecord → RecordRow
  | .bp s d t => ⟨pid, "BP", (s : ℚ), (d : ℚ), t⟩
  | .weight w t => ⟨pid, "Weight", w, 0, t⟩
  | .sugar v t => ⟨pid, "Sugar", v, 0, t⟩

/-- One iteration of the patient loop in `saveAllPatients`: insert the
patient row (its id is `sqlite3_last_insert_rowid`), then the dependent
rows carrying that id. -/

def insertPatient (db : DB) (p : Patient) : DB :=
  { nextId := db.nextId + 1
    patients := db.patients ++ [⟨db.nextId, p.name, p.age, p.contactInfo⟩]
    health_records := db.health_records ++ p.records.map (recordRow db.nextId)
    medications := db.medications ++
      p.medications.map (fun m => ⟨db.nextId, m.name, m.dosage, m.schedule⟩)
    reminders := db.reminders ++
      p.reminders.map (fun r => ⟨db.nextId, r.message, r.date, r.time⟩) }

/-- Model of `DatabaseManager::saveAllPatients`: `DELETE FROM patients` (cascade
clears the dependent tables), then insert the whole in-memory
collection. -/

def saveAllPatients (db : DB) (ps : List Patient) : DB :=
  ps.foldl insertPatient
    { db with patients := [], health_records := [], medications := [], reminders := [] }

/-- C++ `double` → `int` conversion (truncation toward zero), applied when
`loadPatients` hands `value1`/`value2` to the `BloodPressureRecord(int,int,…)`
constructor. -/

def qTruncToInt (q : ℚ) : ℤ := q.num.tdiv (q.den : ℤ)

/-- Decoding of one `health_records` row inside `loadPatients`; an unknown
tag adds nothing. -/

def decodeRecordRow (r : RecordRow) : Option HealthRecord :=
  if r.type = "BP" then some (.bp (qTruncToInt r.value1) (qTruncToInt r.value2) r.timestamp)
  else if r.type = "Weight" then some (.weight r.value1 r.timestamp)
  else if r.type = "Sugar" then some (.sugar r.value1 r.timestamp)
  else none

/-- Model of `DatabaseManager::loadPatients`: `patients.clear()`, then one pass over
the `patients` table, gathering each patient's dependent rows by
`patient_id`. -/

def loadPatients (db : DB) (patients : List Patient) : List Patient :=
  db.patients.map (fun row =>
    { name := row.name
      age := row.age
      contactInfo := row.contact
      records := (db.health_records.filter
          (fun r => r.patient_id == row.id)).filterMap decodeRecordRow
      medications := (db.medications.filter (fun r => r.patient_id == row.id)).map
        (fun m => ⟨m.name, m.dosage, m.schedule⟩)
      reminders := (db.reminders.filter (fun r => r.patient_id == row.id)).map
        (fun r => ⟨r.message, r.date, r.time⟩) })

/-- Every stored row references an id below the autoincrement counter (the
state SQLite maintains). -/

def DBInv (db : DB) : Prop :=
  (∀ r ∈ db.patients, r.id < db.nextId) ∧
  (∀ r ∈ db.health_records, r.patient_id < db.nextId) ∧
  (∀ r ∈ db.medications, r.patient_id < db.nextId) ∧
  (∀ r ∈ db.reminders, r.patient_id < db.nextId)

/-! ## Sample data for witnesses and counterexamples -/

/-- A minimal flat-format-safe patient. -/
def basePatient : Patient := ⟨"A", 1, "c", [], [], []⟩

/-- A patient exercising every owned collection (blood pressure record,
medication, reminder; all fields flat-format-safe). -/

def sampleP : Patient :=
  ⟨"Alice", 30, "555-111", [.bp 120 80 1700000000],
   [⟨"Aspirin", "100mg", "daily"⟩], [⟨"checkup", "2025-01-01", "08:00"⟩]⟩

/-- A database with a stale autoincrement counter and leftover rows. -/
def sampleDB : DB :=
  ⟨7, [⟨3, "Old", 9, "x"⟩], [⟨3, "BP", 1, 2, 5⟩], [⟨3, "m", "d", "s"⟩], [⟨3, "r", "dt", "tm"⟩]⟩

/-- An empty database. -/
def emptyDB : DB := ⟨1, [], [], [], []⟩

/-- A collection one past the loader's sane ceiling of 10000 patients. -/
def bigCollection : List Patient := List.replicate 10001 basePatient

/-- Flat file with one patient whose single medication line is malformed
(no pipe separators at all). -/

def c2File : List Char := "1\nJoe|25|c\n0\n1\nbadmedline\n0\n".data

/-- A patient whose medication name contains the reserved delimiter. -/
def c9Patient : Patient := ⟨"Bob", 30, "c", [], [⟨"a|b", "d", "s"⟩], []⟩

/-- The value `123.456789`: seven significant digits, so the default
six-digit double formatting alters it (to `123.457`). -/

def lossyW : ℚ := ⟨123456789, 1000000, by decide, by decide⟩

/-- A patient whose single weight record carries `lossyW`. -/
def lossyPatient : Patient := ⟨"W", 1, "c", [.weight lossyW 5], [], []⟩

/-- The value `72.5`: printed exactly by the default double formatting. -/
def wVal : ℚ := ⟨145, 2, by decide, by decide⟩

/-- A patient with a weight record whose value survives the default
double formatting. -/

def samplePW : Patient :=
  ⟨"Wendy", 41, "555-222", [.bp 120 80 100, .weight wVal 200], [], []⟩

/-! # Theorems -/

/-! ### Lemmas about the numeral primitives -/

theorem charsVal_aux (a : ℕ) (ys : List Char) :
    ys.foldl (fun b c => 10 * b + (c.toNat - 48)) a
      = a * 10 ^ ys.length + charsVal ys := by
  induction ys generalizing a with
  | nil => simp [charsVal]
  | cons c cs ih =>
    have h0 : charsVal (c :: cs) = (c.toNat - 48) * 10 ^ cs.length + charsVal cs := by
      simp only [charsVal, List.foldl_cons, ih (10 * 0 + (c.toNat - 48))]
      ring
    simp only [List.foldl_cons, ih (10 * a + (c.toNat - 48)), h0, List.length_cons]
    ring

theorem charsVal_append (xs ys : List Char) :
    charsVal (xs ++ ys) = charsVal xs * 10 ^ ys.length + charsVal ys := by
  simp only [charsVal, List.foldl_append]
  exact charsVal_aux _ ys

theorem charsVal_cons (c : Char) (cs : List Char) :
    charsVal (c :: cs) = (c.toNat - 48) * 10 ^ cs.length + charsVal cs := by
  simp only [charsVal, List.foldl_cons]
  have h := charsVal_aux (10 * 0 + (c.toNat - 48)) cs
  simpa using h

theorem charsVal_singleton (c : Char) : charsVal [c] = c.toNat - 48 := by
  simp [charsVal]

theorem digitChar_toNat (d : ℕ) (h : d < 10) : (digitChar d).toNat = 48 + d := by
  interval_cases d <;> rfl

theorem digitChar_isDigitC (d : ℕ) (h : d < 10) : isDigitC (digitChar d) = true := by
  interval_cases d <;> decide

theorem natCharsAux_spec (fuel n : ℕ) (h : n < fuel) :
    charsVal (natCharsAux fuel n) = n ∧
    natCharsAux fuel n ≠ [] ∧
    ∀ c ∈ natCharsAux fuel n, isDigitC c = true := by
  induction fuel generalizing n with
  | zero => omega
  | succ fuel ih =>
    by_cases hn : n < 10
    · refine ⟨?_, by simp [natCharsAux, hn], ?_⟩
      · rw [natCharsAux, if_pos hn, charsVal_singleton, digitChar_toNat n hn]
        omega
      · intro c hc
        rw [natCharsAux, if_pos hn] at hc
        simp at hc
        subst hc
        exact digitChar_isDigitC n hn
    · have hrec : n / 10 < fuel := by omega
      obtain ⟨hval, hne, hdig⟩ := ih (n / 10) hrec
      have hmod : n % 10 < 10 := Nat.mod_lt _ (by omega)
      refine ⟨?_, by simp [natCharsAux, hn], ?_⟩
      · rw [natCharsAux, if_neg hn, charsVal_append, hval, charsVal_singleton,
          digitChar_toNat _ hmod]
        simp only [List.length_singleton, pow_one]
        omega
      · intro c hc
        rw [natCharsAux, if_neg hn] at hc
        rcases List.mem_append.mp hc with h1 | h2
        · exact hdig c h1
        · simp at h2
          subst h2
          exact digitChar_isDigitC _ hmod

theorem charsVal_natChars (n : ℕ) : charsVal (natChars n) = n :=
  (natCharsAux_spec (n + 1) n (by omega)).1

theorem natChars_ne_nil (n : ℕ) : natChars n ≠ [] :=
  (natCharsAux_spec (n + 1) n (by omega)).2.1

theorem natChars_digits (n : ℕ) : ∀ c ∈ natChars n, isDigitC c = true :=
  (natCharsAux_spec (n + 1) n (by omega)).2.2

theorem isDigitC_not_ws {c : Char} (h : isDigitC c = true) : isWs c = false := by
  simp only [isDigitC, Bool.and_eq_true, decide_eq_true_eq] at h
  simp only [isWs, Bool.or_eq_false_iff, decide_eq_false_iff_not]
  refine ⟨⟨⟨?_, ?_⟩, ?_⟩, ?_⟩ <;> (rintro rfl; exact absurd h (by decide))

theorem isDigitC_ne {c : Char} (h : isDigitC c = true) :
    c ≠ '.' ∧ c ≠ '-' ∧ c ≠ '+' ∧ c ≠ '|' ∧ c ≠ '\n' := by
  simp only [isDigitC, Bool.and_eq_true, decide_eq_true_eq] at h
  refine ⟨?_, ?_, ?_, ?_, ?_⟩ <;> (rintro rfl; exact absurd h (by decide))

theorem spanP_split (p : Char → Bool) (ds rest : List Char)
    (hds : ∀ c ∈ ds, p c = true)
    (hrest : ∀ c, rest.head? = some c → p c = false) :
    spanP p (ds ++ rest) = (ds, rest) := by
  induction ds with
  | nil =>
    cases rest with
    | nil => rfl
    | cons c cs => simp [spanP, hrest c rfl]
  | cons d ds ih =>
    have hd := hds d (by simp)
    have ih' := ih (fun c hc => hds c (by simp [hc]))
    simp only [List.cons_append, spanP, hd, if_pos, List.append_eq, ih']

theorem dropWs_not_ws (cs : List Char) (h : ∀ c, cs.head? = some c → isWs c = false) :
    dropWs cs = cs := by
  cases cs with
  | nil => rfl
  | cons c cs => simp [dropWs, h c rfl]

theorem dropWs_cons_ws (c : Char) (cs : List Char) (h : isWs c = true) :
    dropWs (c :: cs) = dropWs cs := by
  simp [dropWs, h]

theorem head?_append_of_ne_nil {α : Type} (xs ys : List α) (h : xs ≠ []) :
    (xs ++ ys).head? = xs.head? := by
  cases xs with
  | nil => exact absurd rfl h
  | cons x xs => rfl

/-! ### Round-trip lemmas for the numeric tokens -/

theorem parseSign_neg (cs : List Char) : parseSign ('-' :: cs) = (true, cs) := by
  simp [parseSign]

theorem parseSign_no_sign (cs : List Char)
    (h : ∀ c, cs.head? = some c → c ≠ '-' ∧ c ≠ '+') :
    parseSign cs = (false, cs) := by
  cases cs with
  | nil => rfl
  | cons c cs =>
    obtain ⟨h1, h2⟩ := h c rfl
    simp [parseSign, h1, h2]

theorem charsVal_replicate_zero (n : ℕ) : charsVal (List.replicate n '0') = 0 := by
  induction n with
  | zero => rfl
  | succ n ih =>
    rw [List.replicate_succ, charsVal_cons, ih]
    have h0 : '0'.toNat - 48 = 0 := by decide
    rw [h0]
    ring

theorem natAbs_cast_q (z : ℤ) : ((z.natAbs : ℕ) : ℚ) = |(z : ℚ)| := by
  rw [Int.cast_natAbs, Int.cast_abs]

theorem dropWs_digit_head (ds rest : List Char) (hne : ds ≠ [])
    (hds : ∀ c ∈ ds, isDigitC c = true) :
    dropWs (ds ++ rest) = ds ++ rest := by
  apply dropWs_not_ws
  intro c hc
  rw [head?_append_of_ne_nil _ _ hne] at hc
  exact isDigitC_not_ws (hds c (List.mem_of_mem_head? hc))

theorem parseSign_digit_head (ds rest : List Char) (hne : ds ≠ [])
    (hds : ∀ c ∈ ds, isDigitC c = true) :
    parseSign (ds ++ rest) = (false, ds ++ rest) := by
  apply parseSign_no_sign
  intro c hc
  rw [head?_append_of_ne_nil _ _ hne] at hc
  have h := isDigitC_ne (hds c (List.mem_of_mem_head? hc))
  exact ⟨h.2.1, h.2.2.1⟩

theorem parseIntCore_intChars (z : ℤ) (rest : List Char)
    (hrest : ∀ c, rest.head? = some c → isDigitC c = false) :
    parseIntCore (intChars z ++ rest) = some (z, rest) := by
  have hnd := natChars_digits z.natAbs
  have hne := natChars_ne_nil z.natAbs
  have hspan : spanP isDigitC (natChars z.natAbs ++ rest) = (natChars z.natAbs, rest) :=
    spanP_split _ _ _ hnd hrest
  have hval := charsVal_natChars z.natAbs
  by_cases hz : z < 0
  · rw [intChars, if_pos hz, List.cons_append]
    have hws : dropWs ('-' :: (natChars z.natAbs ++ rest))
        = '-' :: (natChars z.natAbs ++ rest) :=
      dropWs_not_ws _ (by intro c hc; simp at hc; subst hc; decide)
    simp only [parseIntCore, hws, parseSign_neg, hspan, List.isEmpty_iff, hval,
      if_true, if_false]
    rw [if_neg hne]
    have hcast : -((z.natAbs : ℕ) : ℤ) = z := by omega
    rw [hcast]
  · rw [intChars, if_neg hz]
    simp only [parseIntCore, dropWs_digit_head _ rest hne hnd,
      parseSign_digit_head _ rest hne hnd, hspan, List.isEmpty_iff, hval,
      if_true, if_false]
    rw [if_neg hne]
    have hcast : ((z.natAbs : ℕ) : ℤ) = z := by omega
    rw [hcast]
    simp

/-! ### Lemmas about the default-precision double printer -/

theorem natCharsAux_fuel (f : ℕ) : ∀ (g n : ℕ), n < 10 ^ f → n < 10 ^ g →
    1 ≤ f → 1 ≤ g → natCharsAux f n = natCharsAux g n := by
  induction f with
  | zero => intro g n _ _ h1 _; omega
  | succ f ih =>
    intro g n hf hg _ h1g
    cases g with
    | zero => omega
    | succ g =>
      by_cases h : n < 10
      · rw [natCharsAux, natCharsAux, if_pos h, if_pos h]
      · have hpf : 10 ^ (f + 1) = 10 ^ f * 10 := pow_succ 10 f
        have hpg : 10 ^ (g + 1) = 10 ^ g * 10 := pow_succ 10 g
        have hf2 : n / 10 < 10 ^ f := by omega
        have hg2 : n / 10 < 10 ^ g := by omega
        have h1f : 1 ≤ f := by
          rcases Nat.eq_zero_or_pos f with h0 | h0
          · rw [h0, pow_zero] at hf2; omega
          · exact h0
        have h1g2 : 1 ≤ g := by
          rcases Nat.eq_zero_or_pos g with h0 | h0
          · rw [h0, pow_zero] at hg2; omega
          · exact h0
        rw [natCharsAux, natCharsAux, if_neg h, if_neg h,
          ih g (n / 10) hf2 hg2 h1f h1g2]

theorem natChars_step (n : ℕ) (h : 10 ≤ n) :
    natChars n = natChars (n / 10) ++ [digitChar (n % 10)] := by
  have hself : ∀ m : ℕ, m < 10 ^ (m + 1) := by
    intro m
    calc m < 10 ^ m := Nat.lt_pow_self (by norm_num) m
    _ ≤ 10 ^ (m + 1) := Nat.pow_le_pow_right (by norm_num) (by omega)
  have hp : 10 ^ (n / 10 + 2) = 10 ^ (n / 10 + 1) * 10 := pow_succ 10 (n / 10 + 1)
  have hd : n / 10 < 10 ^ (n / 10 + 1) := hself (n / 10)
  have hn2 : n < 10 ^ (n / 10 + 2) := by omega
  have h1 : natChars n = natCharsAux (n / 10 + 2) n :=
    natCharsAux_fuel (n + 1) (n / 10 + 2) n (hself n) hn2 (by omega) (by omega)
  rw [h1, natCharsAux, if_neg (by omega)]
  rfl

theorem natLen_pos (n : ℕ) : 1 ≤ natLen n :=
  List.length_pos.mpr (natChars_ne_nil n)

theorem natLen_spec (n : ℕ) (h : 1 ≤ n) :
    10 ^ (natLen n - 1) ≤ n ∧ n < 10 ^ natLen n := by
  induction n using Nat.strong_induction_on with
  | _ n ih =>
    by_cases h10 : n < 10
    · have hl : natLen n = 1 := by
        rw [natLen, natChars, natCharsAux, if_pos h10]
        rfl
      rw [hl, show (1 : ℕ) - 1 = 0 from rfl, pow_zero, pow_one]
      omega
    · have hstep := natChars_step n (by omega)
      have hl : natLen n = natLen (n / 10) + 1 := by
        rw [natLen, hstep, List.length_append, natLen]
        rfl
      have hd1 : 1 ≤ n / 10 := by omega
      obtain ⟨ih1, ih2⟩ := ih (n / 10) (by omega) hd1
      have hLpos := natLen_pos (n / 10)
      have hp1 : 10 ^ natLen (n / 10) = 10 ^ (natLen (n / 10) - 1) * 10 := by
        calc 10 ^ natLen (n / 10) = 10 ^ (natLen (n / 10) - 1 + 1) := by congr 1; omega
        _ = 10 ^ (natLen (n / 10) - 1) * 10 := pow_succ 10 _
      have hp2 : 10 ^ (natLen (n / 10) + 1) = 10 ^ natLen (n / 10) * 10 :=
        pow_succ 10 _
      rw [hl]
      constructor
      · rw [show natLen (n / 10) + 1 - 1 = natLen (n / 10) from by omega]
        omega
      · omega

theorem natLen_eq_six {n : ℕ} (h1 : 10 ^ 5 ≤ n) (h2 : n < 10 ^ 6) : natLen n = 6 := by
  have h1' : 100000 ≤ n := by norm_num at h1; exact h1
  have h2' : n < 1000000 := by norm_num at h2; exact h2
  obtain ⟨l1, l2⟩ := natLen_spec n (by omega)
  by_contra hne
  rcases lt_or_gt_of_ne hne with hlt | hgt
  · have hle : 10 ^ natLen n ≤ 10 ^ 5 := Nat.pow_le_pow_right (by norm_num) (by omega)
    have : (10 : ℕ) ^ 5 = 100000 := by norm_num
    omega
  · have hle : 10 ^ 6 ≤ 10 ^ (natLen n - 1) := Nat.pow_le_pow_right (by norm_num) (by omega)
    have : (10 : ℕ) ^ 6 = 1000000 := by norm_num
    omega

theorem pow10Le_iff (X : ℤ) (a b : ℕ) :
    pow10Le X a b = true ↔ b * 10 ^ X.toNat ≤ a * 10 ^ (-X).toNat := by
  rw [pow10Le]
  by_cases h : 0 ≤ X
  · rw [if_pos h, show (-X).toNat = 0 from by omega, pow_zero, mul_one, decide_eq_true_eq]
  · rw [if_neg h, show X.toNat = 0 from by omega, pow_zero, mul_one, decide_eq_true_eq]

theorem qExp_spec (a b : ℕ) (ha : 1 ≤ a) (hb : 1 ≤ b) :
    b * 10 ^ (qExp a b).toNat ≤ a * 10 ^ (-qExp a b).toNat
    ∧ a * 10 ^ (-(qExp a b + 1)).toNat < b * 10 ^ (qExp a b + 1).toNat := by
  obtain ⟨la1, la2⟩ := natLen_spec a ha
  obtain ⟨lb1, lb2⟩ := natLen_spec b hb
  have hla := natLen_pos a
  have hlb := natLen_pos b
  have hqe : qExp a b = if pow10Le ((natLen a : ℤ) - natLen b) a b
      then ((natLen a : ℤ) - natLen b) else ((natLen a : ℤ) - natLen b) - 1 := rfl
  by_cases hc : pow10Le ((natLen a : ℤ) - natLen b) a b = true
  · rw [hqe, if_pos hc]
    refine ⟨(pow10Le_iff _ _ _).mp hc, ?_⟩
    by_cases hord : natLen b ≤ natLen a
    · rw [show (-(((natLen a : ℤ) - natLen b) + 1)).toNat = 0 from by omega,
        show (((natLen a : ℤ) - natLen b) + 1).toNat = natLen a - natLen b + 1 from by omega,
        pow_zero, mul_one]
      calc a < 10 ^ natLen a := la2
      _ = 10 ^ (natLen b - 1) * 10 ^ (natLen a - natLen b + 1) := by
            rw [← pow_add]; congr 1; omega
      _ ≤ b * 10 ^ (natLen a - natLen b + 1) := mul_le_mul_right' lb1 _
    · rw [show (-(((natLen a : ℤ) - natLen b) + 1)).toNat = natLen b - natLen a - 1 from
          by omega,
        show (((natLen a : ℤ) - natLen b) + 1).toNat = 0 from by omega, pow_zero, mul_one]
      calc a * 10 ^ (natLen b - natLen a - 1)
          < 10 ^ natLen a * 10 ^ (natLen b - natLen a - 1) :=
            mul_lt_mul_of_pos_right la2 (pow_pos (by norm_num) _)
      _ = 10 ^ (natLen b - 1) := by rw [← pow_add]; congr 1; omega
      _ ≤ b := lb1
  · rw [hqe, if_neg hc]
    constructor
    · by_cases hord : natLen b + 1 ≤ natLen a
      · rw [show (((natLen a : ℤ) - natLen b) - 1).toNat = natLen a - natLen b - 1 from
            by omega,
          show (-(((natLen a : ℤ) - natLen b) - 1)).toNat = 0 from by omega,
          pow_zero, mul_one]
        have hstep : b * 10 ^ (natLen a - natLen b - 1) < a := by
          calc b * 10 ^ (natLen a - natLen b - 1)
              < 10 ^ natLen b * 10 ^ (natLen a - natLen b - 1) :=
                mul_lt_mul_of_pos_right lb2 (pow_pos (by norm_num) _)
          _ = 10 ^ (natLen a - 1) := by rw [← pow_add]; congr 1; omega
          _ ≤ a := la1
        exact le_of_lt hstep
      · rw [show (((natLen a : ℤ) - natLen b) - 1).toNat = 0 from by omega,
          show (-(((natLen a : ℤ) - natLen b) - 1)).toNat = natLen b - natLen a + 1 from
            by omega,
          pow_zero, mul_one]
        have hstep : b < a * 10 ^ (natLen b - natLen a + 1) := by
          calc b < 10 ^ natLen b := lb2
          _ = 10 ^ (natLen a - 1) * 10 ^ (natLen b - natLen a + 1) := by
                rw [← pow_add]; congr 1; omega
          _ ≤ a * 10 ^ (natLen b - natLen a + 1) := mul_le_mul_right' la1 _
        exact le_of_lt hstep
    · have h2 := (not_congr (pow10Le_iff ((natLen a : ℤ) - natLen b) a b)).mp hc
      rw [show ((natLen a : ℤ) - natLen b) - 1 + 1 = (natLen a : ℤ) - natLen b from
        by ring]
      exact Nat.lt_of_not_le h2

theorem rdiv_bounds (p q : ℕ) : p / q ≤ rdiv p q ∧ rdiv p q ≤ p / q + 1 := by
  rw [rdiv]
  split_ifs <;> omega

theorem mant6_bounds (v : ℚ) (hv : v ≠ 0) :
    10 ^ 5 ≤ (mant6 v).1 ∧ (mant6 v).1 < 10 ^ 6 := by
  have ha : 1 ≤ v.num.natAbs := by
    have := Rat.num_ne_zero.mpr hv
    omega
  have hb : 1 ≤ v.den := v.pos
  obtain ⟨h1, h2⟩ := qExp_spec v.num.natAbs v.den ha hb
  set a := v.num.natAbs with hadef
  set b := v.den with hbdef
  set X := qExp a b with hX
  have hm : mant6 v
      = (if (if 0 ≤ X - 5 then rdiv a (b * 10 ^ (X - 5).toNat)
             else rdiv (a * 10 ^ (5 - X).toNat) b) = 10 ^ 6
         then ((10 ^ 5 : ℕ), X + 1)
         else (if 0 ≤ X - 5 then rdiv a (b * 10 ^ (X - 5).toNat)
               else rdiv (a * 10 ^ (5 - X).toNat) b, X)) := rfl
  have hn0 : 10 ^ 5 ≤ (if 0 ≤ X - 5 then rdiv a (b * 10 ^ (X - 5).toNat)
      else rdiv (a * 10 ^ (5 - X).toNat) b)
      ∧ (if 0 ≤ X - 5 then rdiv a (b * 10 ^ (X - 5).toNat)
         else rdiv (a * 10 ^ (5 - X).toNat) b) ≤ 10 ^ 6 := by
    by_cases hs : 0 ≤ X - 5
    · rw [if_pos hs]
      obtain ⟨r1, r2⟩ := rdiv_bounds a (b * 10 ^ (X - 5).toNat)
      have hqpos : 0 < b * 10 ^ (X - 5).toNat := by positivity
      have hlow : b * 10 ^ (X - 5).toNat * 10 ^ 5 ≤ a := by
        rw [show (-X).toNat = 0 from by omega, pow_zero, mul_one,
          show X.toNat = (X - 5).toNat + 5 from by omega, pow_add, ← mul_assoc] at h1
        exact h1
      have hhigh : a < b * 10 ^ (X - 5).toNat * 10 ^ 6 := by
        rw [show (-(X + 1)).toNat = 0 from by omega, pow_zero, mul_one,
          show (X + 1).toNat = (X - 5).toNat + 6 from by omega, pow_add, ← mul_assoc] at h2
        exact h2
      have hdiv1 : 10 ^ 5 ≤ a / (b * 10 ^ (X - 5).toNat) :=
        (Nat.le_div_iff_mul_le hqpos).mpr (by rw [mul_comm]; exact hlow)
      have hdiv2 : a / (b * 10 ^ (X - 5).toNat) < 10 ^ 6 :=
        (Nat.div_lt_iff_lt_mul hqpos).mpr (by rw [mul_comm]; exact hhigh)
      omega
    · rw [if_neg hs]
      obtain ⟨r1, r2⟩ := rdiv_bounds (a * 10 ^ (5 - X).toNat) b
      have hlow : b * 10 ^ 5 ≤ a * 10 ^ (5 - X).toNat := by
        by_cases hX0 : 0 ≤ X
        · rw [show (-X).toNat = 0 from by omega, pow_zero, mul_one] at h1
          have h1' := mul_le_mul_right' h1 (10 ^ (5 - X).toNat)
          calc b * 10 ^ 5 = b * 10 ^ X.toNat * 10 ^ (5 - X).toNat := by
                  rw [mul_assoc, ← pow_add,
                    show X.toNat + (5 - X).toNat = 5 from by omega]
          _ ≤ a * 10 ^ (5 - X).toNat := h1'
        · rw [show X.toNat = 0 from by omega, pow_zero, mul_one] at h1
          have h1' := mul_le_mul_right' h1 (10 ^ 5)
          calc b * 10 ^ 5 ≤ a * 10 ^ (-X).toNat * 10 ^ 5 := h1'
          _ = a * 10 ^ (5 - X).toNat := by
                rw [mul_assoc, ← pow_add,
                  show (-X).toNat + 5 = (5 - X).toNat from by omega]
      have hhigh : a * 10 ^ (5 - X).toNat < b * 10 ^ 6 := by
        by_cases hX1 : 0 ≤ X + 1
        · rw [show (-(X + 1)).toNat = 0 from by omega, pow_zero, mul_one] at h2
          have h2' := mul_lt_mul_of_pos_right h2
            (pow_pos (by norm_num : (0 : ℕ) < 10) ((5 - X).toNat))
          calc a * 10 ^ (5 - X).toNat
              < b * 10 ^ (X + 1).toNat * 10 ^ (5 - X).toNat := h2'
          _ = b * 10 ^ 6 := by
                rw [mul_assoc, ← pow_add,
                  show (X + 1).toNat + (5 - X).toNat = 6 from by omega]
        · rw [show (X + 1).toNat = 0 from by omega, pow_zero, mul_one] at h2
          have h2' := mul_lt_mul_of_pos_right h2 (pow_pos (by norm_num : (0 : ℕ) < 10) 6)
          calc a * 10 ^ (5 - X).toNat
              = a * 10 ^ (-(X + 1)).toNat * 10 ^ 6 := by
                  rw [mul_assoc, ← pow_add,
                    show (-(X + 1)).toNat + 6 = (5 - X).toNat from by omega]
          _ < b * 10 ^ 6 := h2'
      have hdiv1 : 10 ^ 5 ≤ a * 10 ^ (5 - X).toNat / b :=
        (Nat.le_div_iff_mul_le (by omega)).mpr (by rw [mul_comm]; exact hlow)
      have hdiv2 : a * 10 ^ (5 - X).toNat / b < 10 ^ 6 :=
        (Nat.div_lt_iff_lt_mul (by omega)).mpr (by rw [mul_comm (10 ^ 6) b]; exact hhigh)
      omega
  rw [hm]
  by_cases hover : (if 0 ≤ X - 5 then rdiv a (b * 10 ^ (X - 5).toNat)
      else rdiv (a * 10 ^ (5 - X).toNat) b) = 10 ^ 6
  · rw [if_pos hover]
    norm_num
  · rw [if_neg hover]
    exact ⟨hn0.1, lt_of_le_of_ne hn0.2 hover⟩

theorem stripZeros_decomp (l : List Char) :
    ∃ z, l = stripZeros l ++ List.replicate z '0' := by
  refine ⟨(l.reverse.takeWhile (fun c => c = '0')).length, ?_⟩
  have h2 : l.reverse.takeWhile (fun c => c = '0')
      = List.replicate (l.reverse.takeWhile (fun c => c = '0')).length '0' := by
    apply List.eq_replicate_of_mem
    intro b hb
    have hbd := List.mem_takeWhile_imp hb
    simpa using hbd
  calc l = l.reverse.reverse := (List.reverse_reverse l).symm
  _ = (l.reverse.takeWhile (fun c => c = '0')
        ++ l.reverse.dropWhile (fun c => c = '0')).reverse := by
      rw [List.takeWhile_append_dropWhile]
  _ = (l.reverse.dropWhile (fun c => c = '0')).reverse
        ++ (l.reverse.takeWhile (fun c => c = '0')).reverse := by
      rw [List.reverse_append]
  _ = stripZeros l
        ++ List.replicate (l.reverse.takeWhile (fun c => c = '0')).length '0' := by
      rw [stripZeros]
      congr 1
      conv_lhs => rw [h2]
      rw [List.reverse_replicate]

theorem stripZeros_spec (l : List Char) :
    ∃ z, l = stripZeros l ++ List.replicate z '0'
      ∧ charsVal l = charsVal (stripZeros l) * 10 ^ z
      ∧ l.length = (stripZeros l).length + z := by
  obtain ⟨z, hz⟩ := stripZeros_decomp l
  refine ⟨z, hz, ?_, ?_⟩
  · conv_lhs => rw [hz]
    rw [charsVal_append, charsVal_replicate_zero, List.length_replicate]
    ring
  · conv_lhs => rw [hz]
    rw [List.length_append, List.length_replicate]

theorem stripZeros_sub (l : List Char) : ∀ c ∈ stripZeros l, c ∈ l := by
  obtain ⟨z, hz⟩ := stripZeros_decomp l
  intro c hc
  rw [hz]
  exact List.mem_append.mpr (Or.inl hc)

theorem parseExp_no_e (bv : ℚ) (cs : List Char)
    (h1 : cs.head? ≠ some 'e') (h2 : cs.head? ≠ some 'E') :
    parseExp bv cs = some (bv, cs) := by
  simp only [parseExp]
  rw [if_neg (by rintro (h | h); exacts [h1 h, h2 h])]

theorem parseExp_e_neg (bv : ℚ) (es rest : List Char) (hesne : es ≠ [])
    (hes : ∀ c ∈ es, isDigitC c = true)
    (hrd : ∀ c, rest.head? = some c → isDigitC c = false) :
    parseExp bv ('e' :: '-' :: (es ++ rest))
      = some (bv / (10 : ℚ) ^ charsVal es, rest) := by
  have hspan : spanP isDigitC (es ++ rest) = (es, rest) := spanP_split _ _ _ hes hrd
  simp only [parseExp]
  rw [if_pos (show (('e' :: '-' :: (es ++ rest)) : List Char).head? = some 'e'
    ∨ (('e' :: '-' :: (es ++ rest)) : List Char).head? = some 'E' from Or.inl rfl)]
  simp only [List.tail_cons, parseSign_neg, hspan, List.isEmpty_iff]
  rw [if_neg hesne]
  simp

theorem parseExp_e_pos (bv : ℚ) (es rest : List Char) (hesne : es ≠ [])
    (hes : ∀ c ∈ es, isDigitC c = true)
    (hrd : ∀ c, rest.head? = some c → isDigitC c = false) :
    parseExp bv ('e' :: '+' :: (es ++ rest))
      = some (bv * (10 : ℚ) ^ charsVal es, rest) := by
  have hspan : spanP isDigitC (es ++ rest) = (es, rest) := spanP_split _ _ _ hes hrd
  have hps : parseSign ('+' :: (es ++ rest)) = (false, es ++ rest) := by
    simp [parseSign]
  simp only [parseExp]
  rw [if_pos (show (('e' :: '+' :: (es ++ rest)) : List Char).head? = some 'e'
    ∨ (('e' :: '+' :: (es ++ rest)) : List Char).head? = some 'E' from Or.inl rfl)]
  simp only [List.tail_cons, hps, hspan, List.isEmpty_iff]
  rw [if_neg hesne]
  simp

theorem mantissaBody_head_digit (n : ℕ) (X : ℤ) :
    ∃ c cs, mantissaBody n X = c :: cs ∧ isDigitC c = true := by
  obtain ⟨d, tl, hdt⟩ : ∃ d tl, natChars n = d :: tl := by
    cases h : natChars n with
    | nil => exact absurd h (natChars_ne_nil n)
    | cons d tl => exact ⟨d, tl, rfl⟩
  have hd : isDigitC d = true := natChars_digits n d (by rw [hdt]; simp)
  unfold mantissaBody
  by_cases hfix : -4 ≤ X ∧ X < 6
  · rw [if_pos hfix]
    by_cases hX0 : 0 ≤ X
    · rw [if_pos hX0, hdt, List.take_succ_cons, List.cons_append]
      exact ⟨d, _, rfl, hd⟩
    · rw [if_neg hX0]
      exact ⟨'0', _, rfl, by decide⟩
  · rw [if_neg hfix, hdt, show ((d :: tl).take 1 : List Char) = [d] from rfl]
    exact ⟨d, _, rfl, hd⟩

theorem parseAfterSign_mantissaBody (neg : Bool) (n : ℕ) (X : ℤ)
    (hn1 : 10 ^ 5 ≤ n) (hn2 : n < 10 ^ 6) (rest : List Char)
    (hrest : ∀ c, rest.head? = some c →
      isDigitC c = false ∧ c ≠ '.' ∧ c ≠ 'e' ∧ c ≠ 'E') :
    parseAfterSign neg (mantissaBody n X ++ rest)
      = some ((if neg then (-1 : ℚ) else 1) * sig6Val n X, rest) := by
  have hds := natChars_digits n
  have hne := natChars_ne_nil n
  have hval := charsVal_natChars n
  have hlen : (natChars n).length = 6 := natLen_eq_six hn1 hn2
  have hrd : ∀ c, rest.head? = some c → isDigitC c = false := fun c hc => (hrest c hc).1
  have hdotr : rest.head? ≠ some '.' := fun hc => absurd rfl (hrest '.' hc).2.1
  have her : rest.head? ≠ some 'e' := fun hc => absurd rfl (hrest 'e' hc).2.2.1
  have hEr : rest.head? ≠ some 'E' := fun hc => absurd rfl (hrest 'E' hc).2.2.2
  by_cases hfix : -4 ≤ X ∧ X < 6
  · by_cases hX0 : 0 ≤ X
    · -- fixed notation, X between 0 and 5
      have hXt : X.toNat ≤ 5 := by omega
      have hipne : (natChars n).take (X.toNat + 1) ≠ [] :=
        List.ne_nil_of_length_pos (by rw [List.length_take]; omega)
      have hipdig : ∀ c ∈ (natChars n).take (X.toNat + 1), isDigitC c = true :=
        fun c hc => hds c (List.take_subset _ _ hc)
      have hfpdig0 : ∀ c ∈ (natChars n).drop (X.toNat + 1), isDigitC c = true :=
        fun c hc => hds c (List.drop_subset _ _ hc)
      have hfplen : ((natChars n).drop (X.toNat + 1)).length = 5 - X.toNat := by
        rw [List.length_drop, hlen]
        omega
      have hnval : charsVal ((natChars n).take (X.toNat + 1)) * 10 ^ (5 - X.toNat)
          + charsVal ((natChars n).drop (X.toNat + 1)) = n := by
        have h := charsVal_append ((natChars n).take (X.toNat + 1))
          ((natChars n).drop (X.toNat + 1))
        rw [List.take_append_drop, hval, hfplen] at h
        omega
      obtain ⟨z, hzdec, hzval, hzlen⟩ := stripZeros_spec ((natChars n).drop (X.toNat + 1))
      have hbody : mantissaBody n X
          = (natChars n).take (X.toNat + 1) ++
            (if (stripZeros ((natChars n).drop (X.toNat + 1))).isEmpty then []
             else '.' :: stripZeros ((natChars n).drop (X.toNat + 1))) := by
        unfold mantissaBody
        rw [if_pos hfix, if_pos hX0]
      by_cases hfpe : (stripZeros ((natChars n).drop (X.toNat + 1))).isEmpty
      · -- all fraction digits are zeros: integer output
        have hfpnil : stripZeros ((natChars n).drop (X.toNat + 1)) = [] :=
          List.isEmpty_iff.mp hfpe
        have hzv0 : charsVal ((natChars n).drop (X.toNat + 1)) = 0 := by
          rw [hzval, hfpnil, show charsVal ([] : List Char) = 0 from rfl, zero_mul]
        have hcv : charsVal ((natChars n).take (X.toNat + 1)) * 10 ^ (5 - X.toNat) = n := by
          omega
        have hbody2 : mantissaBody n X = (natChars n).take (X.toNat + 1) := by
          rw [hbody, if_pos hfpe, List.append_nil]
        rw [hbody2]
        have hspan : spanP isDigitC ((natChars n).take (X.toNat + 1) ++ rest)
            = ((natChars n).take (X.toNat + 1), rest) := spanP_split _ _ _ hipdig hrd
        simp only [parseAfterSign, hspan, List.isEmpty_iff]
        rw [if_neg hipne, if_neg hdotr, parseExp_no_e _ _ her hEr]
        have hq : (charsVal ((natChars n).take (X.toNat + 1)) : ℚ) = sig6Val n X := by
          by_cases hs : 0 ≤ X - 5
          · rw [sig6Val, if_pos hs,
              show (X - 5).toNat = 0 from by omega, pow_zero, mul_one]
            rw [show 5 - X.toNat = 0 from by omega, pow_zero, mul_one] at hcv
            exact_mod_cast congrArg (Nat.cast : ℕ → ℚ) hcv
          · rw [sig6Val, if_neg hs, eq_div_iff (by positivity)]
            rw [show (5 - X).toNat = 5 - X.toNat from by omega]
            exact_mod_cast hcv
        rw [hq]
      · -- some fraction digit survives
        have hfpne : stripZeros ((natChars n).drop (X.toNat + 1)) ≠ [] := by
          intro h
          rw [h] at hfpe
          exact hfpe rfl
        have hbody2 : mantissaBody n X
            = (natChars n).take (X.toNat + 1)
              ++ '.' :: stripZeros ((natChars n).drop (X.toNat + 1)) := by
          rw [hbody, if_neg hfpe]
        have hXt4 : X.toNat ≤ 4 := by
          by_contra hgt
          have hlz : ((natChars n).drop (X.toNat + 1)).length = 0 := by omega
          have hdnil : (natChars n).drop (X.toNat + 1) = [] :=
            List.eq_nil_of_length_eq_zero hlz
          rw [hdnil] at hfpne
          exact hfpne rfl
        have hflz : (stripZeros ((natChars n).drop (X.toNat + 1))).length + z
            = 5 - X.toNat := by
          omega
        have hcomb : (charsVal ((natChars n).take (X.toNat + 1))
              * 10 ^ (stripZeros ((natChars n).drop (X.toNat + 1))).length
            + charsVal (stripZeros ((natChars n).drop (X.toNat + 1)))) * 10 ^ z = n := by
          have hsplit : (10 : ℕ) ^ (5 - X.toNat)
              = 10 ^ (stripZeros ((natChars n).drop (X.toNat + 1))).length * 10 ^ z := by
            rw [← pow_add, hflz]
          calc (charsVal ((natChars n).take (X.toNat + 1))
                  * 10 ^ (stripZeros ((natChars n).drop (X.toNat + 1))).length
                + charsVal (stripZeros ((natChars n).drop (X.toNat + 1)))) * 10 ^ z
              = charsVal ((natChars n).take (X.toNat + 1))
                  * (10 ^ (stripZeros ((natChars n).drop (X.toNat + 1))).length * 10 ^ z)
                + charsVal (stripZeros ((natChars n).drop (X.toNat + 1))) * 10 ^ z := by
                  ring
          _ = charsVal ((natChars n).take (X.toNat + 1)) * 10 ^ (5 - X.toNat)
                + charsVal ((natChars n).drop (X.toNat + 1)) := by
                  rw [← hsplit, ← hzval]
          _ = n := hnval
        rw [hbody2]
        have hshape : ((natChars n).take (X.toNat + 1)
              ++ '.' :: stripZeros ((natChars n).drop (X.toNat + 1))) ++ rest
            = (natChars n).take (X.toNat + 1)
              ++ '.' :: (stripZeros ((natChars n).drop (X.toNat + 1)) ++ rest) := by
          simp
        rw [hshape]
        have hfpdig : ∀ c ∈ stripZeros ((natChars n).drop (X.toNat + 1)),
            isDigitC c = true :=
          fun c hc => hfpdig0 c (stripZeros_sub _ c hc)
        have hspan1 : spanP isDigitC ((natChars n).take (X.toNat + 1)
              ++ '.' :: (stripZeros ((natChars n).drop (X.toNat + 1)) ++ rest))
            = ((natChars n).take (X.toNat + 1),
               '.' :: (stripZeros ((natChars n).drop (X.toNat + 1)) ++ rest)) :=
          spanP_split _ _ _ hipdig (by intro c hc; simp at hc; subst hc; decide)
        have hspan2 : spanP isDigitC
            (stripZeros ((natChars n).drop (X.toNat + 1)) ++ rest)
            = (stripZeros ((natChars n).drop (X.toNat + 1)), rest) :=
          spanP_split _ _ _ hfpdig hrd
        simp only [parseAfterSign, hspan1, List.isEmpty_iff]
        rw [if_neg hipne]
        rw [if_pos (show ('.' :: (stripZeros ((natChars n).drop (X.toNat + 1)) ++ rest)
            : List Char).head? = some '.' from rfl)]
        simp only [List.tail_cons, hspan2]
        rw [parseExp_no_e _ _ her hEr]
        have hcross : (charsVal ((natChars n).take (X.toNat + 1))
              * 10 ^ (stripZeros ((natChars n).drop (X.toNat + 1))).length
            + charsVal (stripZeros ((natChars n).drop (X.toNat + 1))))
              * 10 ^ (5 - X.toNat)
            = n * 10 ^ (stripZeros ((natChars n).drop (X.toNat + 1))).length := by
          calc (charsVal ((natChars n).take (X.toNat + 1))
                  * 10 ^ (stripZeros ((natChars n).drop (X.toNat + 1))).length
                + charsVal (stripZeros ((natChars n).drop (X.toNat + 1))))
                  * 10 ^ (5 - X.toNat)
              = ((charsVal ((natChars n).take (X.toNat + 1))
                  * 10 ^ (stripZeros ((natChars n).drop (X.toNat + 1))).length
                + charsVal (stripZeros ((natChars n).drop (X.toNat + 1)))) * 10 ^ z)
                  * 10 ^ (stripZeros ((natChars n).drop (X.toNat + 1))).length := by
                  rw [mul_assoc, ← pow_add,
                    show z + (stripZeros ((natChars n).drop (X.toNat + 1))).length
                      = 5 - X.toNat from by omega]
          _ = n * 10 ^ (stripZeros ((natChars n).drop (X.toNat + 1))).length := by
                  rw [hcomb]
        have hq : ((charsVal ((natChars n).take (X.toNat + 1))
                * 10 ^ (stripZeros ((natChars n).drop (X.toNat + 1))).length
              + charsVal (stripZeros ((natChars n).drop (X.toNat + 1))) : ℕ) : ℚ)
              / 10 ^ (stripZeros ((natChars n).drop (X.toNat + 1))).length
            = sig6Val n X := by
          rw [sig6Val, if_neg (by omega : ¬ (0 : ℤ) ≤ X - 5),
            show (5 - X).toNat = 5 - X.toNat from by omega,
            div_eq_div_iff (by positivity) (by positivity)]
          push_cast
          exact_mod_cast hcross
        rw [mul_div_assoc, hq]
    · -- fixed notation, X between -4 and -1
      have hfulldig : ∀ c ∈ List.replicate ((-X).toNat - 1) '0' ++ natChars n,
          isDigitC c = true := by
        intro c hc
        rcases List.mem_append.mp hc with h1 | h1
        · rw [List.eq_of_mem_replicate h1]; decide
        · exact hds c h1
      have hfullval : charsVal (List.replicate ((-X).toNat - 1) '0' ++ natChars n) = n := by
        rw [charsVal_append, charsVal_replicate_zero, hval]
        ring
      have hfulllen : (List.replicate ((-X).toNat - 1) '0' ++ natChars n).length
          = (-X).toNat - 1 + 6 := by
        rw [List.length_append, List.length_replicate, hlen]
      obtain ⟨z, hzdec, hzval, hzlen⟩ :=
        stripZeros_spec (List.replicate ((-X).toNat - 1) '0' ++ natChars n)
      have hfpne : stripZeros (List.replicate ((-X).toNat - 1) '0' ++ natChars n) ≠ [] := by
        intro h
        rw [h, show charsVal ([] : List Char) = 0 from rfl, zero_mul] at hzval
        omega
      have hfpdig : ∀ c ∈ stripZeros (List.replicate ((-X).toNat - 1) '0' ++ natChars n),
          isDigitC c = true :=
        fun c hc => hfulldig c (stripZeros_sub _ c hc)
      have hbody : mantissaBody n X
          = '0' :: '.' :: stripZeros (List.replicate ((-X).toNat - 1) '0' ++ natChars n) := by
        unfold mantissaBody
        rw [if_pos hfix, if_neg hX0]
      rw [hbody]
      have hspan1 : spanP isDigitC
          ('0' :: '.' :: (stripZeros (List.replicate ((-X).toNat - 1) '0' ++ natChars n)
            ++ rest))
          = (['0'], '.' :: (stripZeros (List.replicate ((-X).toNat - 1) '0' ++ natChars n)
            ++ rest)) := by
        have h := spanP_split isDigitC ['0']
          ('.' :: (stripZeros (List.replicate ((-X).toNat - 1) '0' ++ natChars n) ++ rest))
          (by intro c hc; simp at hc; subst hc; decide)
          (by intro c hc; simp at hc; subst hc; decide)
        simpa using h
      have hspan2 : spanP isDigitC
          (stripZeros (List.replicate ((-X).toNat - 1) '0' ++ natChars n) ++ rest)
          = (stripZeros (List.replicate ((-X).toNat - 1) '0' ++ natChars n), rest) :=
        spanP_split _ _ _ hfpdig hrd
      simp only [List.cons_append, parseAfterSign, hspan1, List.isEmpty_iff]
      rw [if_neg (by simp : (['0'] : List Char) ≠ [])]
      rw [if_pos (show ('.' :: (stripZeros (List.replicate ((-X).toNat - 1) '0'
          ++ natChars n) ++ rest) : List Char).head? = some '.' from rfl)]
      simp only [List.tail_cons, hspan2]
      rw [parseExp_no_e _ _ her hEr]
      have hcross : charsVal (stripZeros (List.replicate ((-X).toNat - 1) '0' ++ natChars n))
            * 10 ^ (5 - X).toNat
          = n * 10 ^ (stripZeros (List.replicate ((-X).toNat - 1) '0'
              ++ natChars n)).length := by
        calc charsVal (stripZeros (List.replicate ((-X).toNat - 1) '0' ++ natChars n))
              * 10 ^ (5 - X).toNat
            = charsVal (stripZeros (List.replicate ((-X).toNat - 1) '0' ++ natChars n))
                * 10 ^ z * 10 ^ (stripZeros (List.replicate ((-X).toNat - 1) '0'
                  ++ natChars n)).length := by
              rw [mul_assoc, ← pow_add,
                show z + (stripZeros (List.replicate ((-X).toNat - 1) '0'
                  ++ natChars n)).length = (5 - X).toNat from by omega]
        _ = charsVal (List.replicate ((-X).toNat - 1) '0' ++ natChars n)
              * 10 ^ (stripZeros (List.replicate ((-X).toNat - 1) '0'
                ++ natChars n)).length := by
              rw [← hzval]
        _ = n * 10 ^ (stripZeros (List.replicate ((-X).toNat - 1) '0'
              ++ natChars n)).length := by
              rw [hfullval]
      have hq : ((charsVal ['0']
              * 10 ^ (stripZeros (List.replicate ((-X).toNat - 1) '0'
                ++ natChars n)).length
            + charsVal (stripZeros (List.replicate ((-X).toNat - 1) '0'
                ++ natChars n)) : ℕ) : ℚ)
            / 10 ^ (stripZeros (List.replicate ((-X).toNat - 1) '0'
                ++ natChars n)).length
          = sig6Val n X := by
        rw [show charsVal ['0'] = 0 from by decide, zero_mul, zero_add,
          sig6Val, if_neg (by omega : ¬ (0 : ℤ) ≤ X - 5),
          div_eq_div_iff (by positivity) (by positivity)]
        push_cast
        exact_mod_cast hcross
      rw [mul_div_assoc, hq]
  · -- scientific notation: X below -4 or at least 6
    have hXr : X < -4 ∨ 6 ≤ X := by
      rcases not_and_or.mp hfix with h | h
      · left; omega
      · right; omega
    obtain ⟨z, hzdec, hzval, hzlen⟩ := stripZeros_spec (natChars n).tail
    have htlen : ((natChars n).tail).length = 5 := by
      rw [List.length_tail, hlen]
    have htdig : ∀ c ∈ (natChars n).tail, isDigitC c = true :=
      fun c hc => hds c (List.tail_subset _ hc)
    have hfpdig : ∀ c ∈ stripZeros (natChars n).tail, isDigitC c = true :=
      fun c hc => htdig c (stripZeros_sub _ c hc)
    have htt : (natChars n).take 1 ++ (natChars n).tail = natChars n := by
      rw [← List.drop_one]
      exact List.take_append_drop 1 _
    have ht1dig : ∀ c ∈ (natChars n).take 1, isDigitC c = true :=
      fun c hc => hds c (List.take_subset _ _ hc)
    have ht1ne : (natChars n).take 1 ≠ [] :=
      List.ne_nil_of_length_pos (by rw [List.length_take]; omega)
    have hnsplit : charsVal ((natChars n).take 1) * 10 ^ 5
        + charsVal ((natChars n).tail) = n := by
      have h := charsVal_append ((natChars n).take 1) ((natChars n).tail)
      rw [htt, hval, htlen] at h
      omega
    have hesdig : ∀ c ∈ (if natLen X.natAbs < 2 then '0' :: natChars X.natAbs
        else natChars X.natAbs), isDigitC c = true := by
      intro c hc
      by_cases h2 : natLen X.natAbs < 2
      · rw [if_pos h2] at hc
        rcases List.mem_cons.mp hc with h | h
        · rw [h]; decide
        · exact natChars_digits _ c h
      · rw [if_neg h2] at hc
        exact natChars_digits _ c hc
    have hesne : (if natLen X.natAbs < 2 then '0' :: natChars X.natAbs
        else natChars X.natAbs) ≠ [] := by
      by_cases h2 : natLen X.natAbs < 2
      · rw [if_pos h2]; simp
      · rw [if_neg h2]; exact natChars_ne_nil _
    have hesval : charsVal (if natLen X.natAbs < 2 then '0' :: natChars X.natAbs
        else natChars X.natAbs) = X.natAbs := by
      by_cases h2 : natLen X.natAbs < 2
      · rw [if_pos h2, charsVal_cons, charsVal_natChars,
          show ('0'.toNat - 48 : ℕ) = 0 from rfl]
        ring
      · rw [if_neg h2]
        exact charsVal_natChars _
    have hbody : mantissaBody n X
        = ((natChars n).take 1 ++
            (if (stripZeros (natChars n).tail).isEmpty then []
             else '.' :: stripZeros (natChars n).tail)) ++
          'e' :: (if X < 0 then '-' else '+') ::
            (if natLen X.natAbs < 2 then '0' :: natChars X.natAbs
             else natChars X.natAbs) := by
      unfold mantissaBody
      rw [if_neg hfix]
    have hvalpos : (6 : ℤ) ≤ X →
        (n : ℚ) / 10 ^ 5 * (10 : ℚ) ^ X.natAbs = sig6Val n X := by
      intro hX6
      rw [sig6Val, if_pos (by omega : (0 : ℤ) ≤ X - 5),
        show X.natAbs = (X - 5).toNat + 5 from by omega, pow_add]
      push_cast
      field_simp
      ring
    have hvalneg : X < -4 →
        (n : ℚ) / 10 ^ 5 / (10 : ℚ) ^ X.natAbs = sig6Val n X := by
      intro hX4
      rw [sig6Val, if_neg (by omega : ¬ (0 : ℤ) ≤ X - 5),
        show (5 - X).toNat = X.natAbs + 5 from by omega]
      push_cast
      rw [div_div, ← pow_add, add_comm 5 X.natAbs]
    by_cases hfpe : (stripZeros (natChars n).tail).isEmpty
    · -- the five trailing mantissa digits are zeros
      have hfpnil : stripZeros (natChars n).tail = [] := List.isEmpty_iff.mp hfpe
      have hzv0 : charsVal ((natChars n).tail) = 0 := by
        rw [hzval, hfpnil, show charsVal ([] : List Char) = 0 from rfl, zero_mul]
      have hcv : charsVal ((natChars n).take 1) * 10 ^ 5 = n := by omega
      have hbody2 : mantissaBody n X
          = (natChars n).take 1 ++
            'e' :: (if X < 0 then '-' else '+') ::
              (if natLen X.natAbs < 2 then '0' :: natChars X.natAbs
               else natChars X.natAbs) := by
        rw [hbody, if_pos hfpe, List.append_nil]
      rw [hbody2, List.append_assoc]
      have hspan1 : spanP isDigitC ((natChars n).take 1 ++
          ('e' :: (if X < 0 then '-' else '+') ::
            (if natLen X.natAbs < 2 then '0' :: natChars X.natAbs
             else natChars X.natAbs) ++ rest))
          = ((natChars n).take 1,
             'e' :: (if X < 0 then '-' else '+') ::
               (if natLen X.natAbs < 2 then '0' :: natChars X.natAbs
                else natChars X.natAbs) ++ rest) :=
        spanP_split _ _ _ ht1dig (by intro c hc; simp at hc; subst hc; decide)
      simp only [parseAfterSign, hspan1, List.isEmpty_iff]
      rw [if_neg ht1ne]
      rw [if_neg (by simp : ¬ (('e' :: (if X < 0 then '-' else '+') ::
        (if natLen X.natAbs < 2 then '0' :: natChars X.natAbs
         else natChars X.natAbs) ++ rest : List Char)).head? = some '.')]
      have hmant : ((charsVal ((natChars n).take 1) : ℕ) : ℚ) = (n : ℚ) / 10 ^ 5 := by
        rw [eq_div_iff (by positivity)]
        exact_mod_cast hcv
      rcases hXr with hX4 | hX6
      · rw [show (if X < 0 then '-' else '+') = '-' from by rw [if_pos (by omega)],
          List.cons_append, List.cons_append,
          parseExp_e_neg _ _ _ hesne hesdig hrd, hesval, hmant,
          mul_div_assoc, hvalneg hX4]
      · rw [show (if X < 0 then '-' else '+') = '+' from by rw [if_neg (by omega)],
          List.cons_append, List.cons_append,
          parseExp_e_pos _ _ _ hesne hesdig hrd, hesval, hmant,
          mul_assoc, hvalpos hX6]
    · -- a fraction digit survives in the mantissa
      have hfpne : stripZeros (natChars n).tail ≠ [] := by
        intro h
        rw [h] at hfpe
        exact hfpe rfl
      have hbody2 : mantissaBody n X
          = ((natChars n).take 1 ++ '.' :: stripZeros (natChars n).tail) ++
            'e' :: (if X < 0 then '-' else '+') ::
              (if natLen X.natAbs < 2 then '0' :: natChars X.natAbs
               else natChars X.natAbs) := by
        rw [hbody, if_neg hfpe]
      have hshape : (((natChars n).take 1 ++ '.' :: stripZeros (natChars n).tail) ++
            'e' :: (if X < 0 then '-' else '+') ::
              (if natLen X.natAbs < 2 then '0' :: natChars X.natAbs
               else natChars X.natAbs)) ++ rest
          = (natChars n).take 1 ++ '.' :: (stripZeros (natChars n).tail ++
            ('e' :: (if X < 0 then '-' else '+') ::
              (if natLen X.natAbs < 2 then '0' :: natChars X.natAbs
               else natChars X.natAbs) ++ rest)) := by
        simp
      rw [hbody2, hshape]
      have hspan1 : spanP isDigitC ((natChars n).take 1 ++
          '.' :: (stripZeros (natChars n).tail ++
            ('e' :: (if X < 0 then '-' else '+') ::
              (if natLen X.natAbs < 2 then '0' :: natChars X.natAbs
               else natChars X.natAbs) ++ rest)))
          = ((natChars n).take 1,
             '.' :: (stripZeros (natChars n).tail ++
               ('e' :: (if X < 0 then '-' else '+') ::
                 (if natLen X.natAbs < 2 then '0' :: natChars X.natAbs
                  else natChars X.natAbs) ++ rest))) :=
        spanP_split _ _ _ ht1dig (by intro c hc; simp at hc; subst hc; decide)
      have hspan2 : spanP isDigitC (stripZeros (natChars n).tail ++
          ('e' :: (if X < 0 then '-' else '+') ::
            (if natLen X.natAbs < 2 then '0' :: natChars X.natAbs
             else natChars X.natAbs) ++ rest))
          = (stripZeros (natChars n).tail,
             'e' :: (if X < 0 then '-' else '+') ::
               (if natLen X.natAbs < 2 then '0' :: natChars X.natAbs
                else natChars X.natAbs) ++ rest) :=
        spanP_split _ _ _ hfpdig (by intro c hc; simp at hc; subst hc; decide)
      simp only [parseAfterSign, hspan1, List.isEmpty_iff]
      rw [if_neg ht1ne]
      rw [if_pos (show ('.' :: (stripZeros (natChars n).tail ++
          ('e' :: (if X < 0 then '-' else '+') ::
            (if natLen X.natAbs < 2 then '0' :: natChars X.natAbs
             else natChars X.natAbs) ++ rest)) : List Char).head? = some '.' from rfl)]
      simp only [List.tail_cons, hspan2]
      have hcross : (charsVal ((natChars n).take 1)
            * 10 ^ (stripZeros (natChars n).tail).length
          + charsVal (stripZeros (natChars n).tail)) * 10 ^ 5
          = n * 10 ^ (stripZeros (natChars n).tail).length := by
        calc (charsVal ((natChars n).take 1)
              * 10 ^ (stripZeros (natChars n).tail).length
            + charsVal (stripZeros (natChars n).tail)) * 10 ^ 5
            = charsVal ((natChars n).take 1) * 10 ^ 5
                * 10 ^ (stripZeros (natChars n).tail).length
              + charsVal (stripZeros (natChars n).tail) * 10 ^ z
                * 10 ^ (stripZeros (natChars n).tail).length := by
              rw [show (10 : ℕ) ^ 5
                  = 10 ^ z * 10 ^ (stripZeros (natChars n).tail).length from by
                rw [← pow_add]; congr 1; omega]
              ring
        _ = (charsVal ((natChars n).take 1) * 10 ^ 5 + charsVal ((natChars n).tail))
              * 10 ^ (stripZeros (natChars n).tail).length := by
              rw [← hzval]
              ring
        _ = n * 10 ^ (stripZeros (natChars n).tail).length := by rw [hnsplit]
      have hmant : ((charsVal ((natChars n).take 1)
            * 10 ^ (stripZeros (natChars n).tail).length
          + charsVal (stripZeros (natChars n).tail) : ℕ) : ℚ)
          / 10 ^ (stripZeros (natChars n).tail).length = (n : ℚ) / 10 ^ 5 := by
        rw [div_eq_div_iff (by positivity) (by positivity)]
        push_cast
        exact_mod_cast hcross
      rcases hXr with hX4 | hX6
      · rw [show (if X < 0 then '-' else '+') = '-' from by rw [if_pos (by omega)],
          List.cons_append, List.cons_append,
          parseExp_e_neg _ _ _ hesne hesdig hrd, hesval,
          mul_div_assoc, hmant, mul_div_assoc, hvalneg hX4]
      · rw [show (if X < 0 then '-' else '+') = '+' from by rw [if_neg (by omega)],
          List.cons_append, List.cons_append,
          parseExp_e_pos _ _ _ hesne hesdig hrd, hesval,
          mul_div_assoc, hmant, mul_assoc, hvalpos hX6]

theorem parseRatCore_doubleChars (v : ℚ) (rest : List Char)
    (hrest : ∀ c, rest.head? = some c →
      isDigitC c = false ∧ c ≠ '.' ∧ c ≠ 'e' ∧ c ≠ 'E') :
    parseRatCore (doubleChars v ++ rest) = some (round6 v, rest) := by
  have hrd : ∀ c, rest.head? = some c → isDigitC c = false := fun c hc => (hrest c hc).1
  by_cases hv0 : v = 0
  · subst hv0
    rw [show doubleChars 0 = ['0'] from by unfold doubleChars; rw [if_pos rfl]]
    have hdig : ∀ c ∈ (['0'] : List Char), isDigitC c = true := by
      intro c hc; simp at hc; subst hc; decide
    have hspan : spanP isDigitC (['0'] ++ rest) = (['0'], rest) :=
      spanP_split _ _ _ hdig hrd
    have hdws : dropWs (['0'] ++ rest) = ['0'] ++ rest :=
      dropWs_digit_head _ _ (by simp) hdig
    have hps : parseSign (['0'] ++ rest) = (false, ['0'] ++ rest) :=
      parseSign_digit_head _ _ (by simp) hdig
    simp only [parseRatCore, hdws, hps, parseAfterSign, hspan, List.isEmpty_iff]
    rw [if_neg (by simp : (['0'] : List Char) ≠ [])]
    rw [if_neg (fun hc => absurd rfl (hrest '.' hc).2.1)]
    rw [parseExp_no_e _ _ (fun hc => absurd rfl (hrest 'e' hc).2.2.1)
      (fun hc => absurd rfl (hrest 'E' hc).2.2.2)]
    rw [show round6 0 = 0 from by unfold round6; rw [if_pos rfl]]
    norm_num
    decide
  · obtain ⟨hb1, hb2⟩ := mant6_bounds v hv0
    obtain ⟨c0, cs0, hc0, hc0d⟩ := mantissaBody_head_digit (mant6 v).1 (mant6 v).2
    by_cases hvneg : v < 0
    · have hdc : doubleChars v = '-' :: mantissaBody (mant6 v).1 (mant6 v).2 := by
        unfold doubleChars
        rw [if_neg hv0, if_pos hvneg]
      have hr6 : round6 v = -sig6Val (mant6 v).1 (mant6 v).2 := by
        unfold round6
        rw [if_neg hv0, if_pos hvneg]
      rw [hdc, List.cons_append]
      have hdws : dropWs ('-' :: (mantissaBody (mant6 v).1 (mant6 v).2 ++ rest))
          = '-' :: (mantissaBody (mant6 v).1 (mant6 v).2 ++ rest) :=
        dropWs_not_ws _ (by intro c hc; simp at hc; subst hc; decide)
      simp only [parseRatCore, hdws, parseSign_neg]
      rw [parseAfterSign_mantissaBody true (mant6 v).1 (mant6 v).2 hb1 hb2 rest hrest,
        hr6]
      norm_num
    · have hdc : doubleChars v = mantissaBody (mant6 v).1 (mant6 v).2 := by
        unfold doubleChars
        rw [if_neg hv0, if_neg hvneg]
      have hr6 : round6 v = sig6Val (mant6 v).1 (mant6 v).2 := by
        unfold round6
        rw [if_neg hv0, if_neg hvneg]
      rw [hdc]
      have hdws : dropWs (mantissaBody (mant6 v).1 (mant6 v).2 ++ rest)
          = mantissaBody (mant6 v).1 (mant6 v).2 ++ rest := by
        rw [hc0, List.cons_append]
        exact dropWs_not_ws _
          (by intro c hc; simp at hc; subst hc; exact isDigitC_not_ws hc0d)
      have hps : parseSign (mantissaBody (mant6 v).1 (mant6 v).2 ++ rest)
          = (false, mantissaBody (mant6 v).1 (mant6 v).2 ++ rest) := by
        rw [hc0, List.cons_append]
        apply parseSign_no_sign
        intro c hc
        simp at hc
        subst hc
        exact ⟨(isDigitC_ne hc0d).2.1, (isDigitC_ne hc0d).2.2.1⟩
      simp only [parseRatCore, hdws, hps]
      rw [parseAfterSign_mantissaBody false (mant6 v).1 (mant6 v).2 hb1 hb2 rest hrest,
        hr6]
      norm_num

/-! ### Line-structure lemmas -/

theorem lineSplit_append (ln rest : List Char) (h : '\n' ∉ ln) :
    lineSplit (ln ++ '\n' :: rest) = (ln, rest) := by
  induction ln with
  | nil => simp [lineSplit]
  | cons c cs ih =>
    have hc : c ≠ '\n' := fun hc => h (hc ▸ List.mem_cons_self c cs)
    simp [lineSplit, hc, ih (fun hm => h (List.mem_cons_of_mem _ hm))]

theorem splitPipe_append (a b : List Char) (h : '|' ∉ a) :
    splitPipe (a ++ '|' :: b) = some (a, b) := by
  induction a with
  | nil => simp [splitPipe]
  | cons c cs ih =>
    have hc : c ≠ '|' := fun hc => h (hc ▸ List.mem_cons_self c cs)
    simp [splitPipe, hc, ih (fun hm => h (List.mem_cons_of_mem _ hm))]

theorem splitPipe_none (a : List Char) (h : '|' ∉ a) : splitPipe a = none := by
  induction a with
  | nil => rfl
  | cons c cs ih =>
    have hc : c ≠ '|' := fun hc => h (hc ▸ List.mem_cons_self c cs)
    simp [splitPipe, hc, ih (fun hm => h (List.mem_cons_of_mem _ hm))]

/-! ## Stream-level reading lemmas -/

theorem string_mk_data (s : String) : String.mk s.data = s := rfl

theorem intChars_natCast (n : ℕ) : intChars (n : ℤ) = natChars n := by
  rw [intChars, if_neg (by exact_mod_cast Nat.not_lt_zero n), Int.natAbs_ofNat]

theorem mem_intChars_digit_or_minus (z : ℤ) :
    ∀ c ∈ intChars z, isDigitC c = true ∨ c = '-' := by
  intro c hc
  rw [intChars] at hc
  by_cases hz : z < 0
  · rw [if_pos hz] at hc
    rcases List.mem_cons.mp hc with h | h
    · exact Or.inr h
    · exact Or.inl (natChars_digits _ c h)
  · rw [if_neg hz] at hc
    exact Or.inl (natChars_digits _ c hc)

theorem pipe_not_mem_intChars (z : ℤ) : '|' ∉ intChars z := by
  intro hc
  rcases mem_intChars_digit_or_minus z '|' hc with h | h
  · exact absurd h (by decide)
  · exact absurd h (by decide)

theorem newline_not_mem_intChars (z : ℤ) : '\n' ∉ intChars z := by
  intro hc
  rcases mem_intChars_digit_or_minus z '\n' hc with h | h
  · exact absurd h (by decide)
  · exact absurd h (by decide)

theorem stoi_intChars (z : ℤ) : stoi (intChars z) = some z := by
  have h := parseIntCore_intChars z [] (by intro c hc; simp at hc)
  rw [List.append_nil] at h
  rw [stoi, h]
  rfl

theorem readInt_exact (z : ℤ) (rest : List Char)
    (hrest : ∀ c, rest.head? = some c → isDigitC c = false) :
    IS.readInt ⟨intChars z ++ rest, false⟩ = (some z, ⟨rest, false⟩) := by
  simp [IS.readInt, parseIntCore_intChars z rest hrest]

theorem parseIntCore_cons_ws (c : Char) (cs : List Char) (h : isWs c = true) :
    parseIntCore (c :: cs) = parseIntCore cs := by
  simp [parseIntCore, dropWs_cons_ws c cs h]

theorem parseRatCore_cons_ws (c : Char) (cs : List Char) (h : isWs c = true) :
    parseRatCore (c :: cs) = parseRatCore cs := by
  simp [parseRatCore, dropWs_cons_ws c cs h]

theorem readInt_sp (z : ℤ) (rest : List Char)
    (hrest : ∀ c, rest.head? = some c → isDigitC c = false) :
    IS.readInt ⟨' ' :: (intChars z ++ rest), false⟩ = (some z, ⟨rest, false⟩) := by
  simp [IS.readInt, parseIntCore_cons_ws ' ' _ (by decide),
    parseIntCore_intChars z rest hrest]

theorem readRat_sp6 (v : ℚ) (rest : List Char)
    (hrest : ∀ c, rest.head? = some c →
      isDigitC c = false ∧ c ≠ '.' ∧ c ≠ 'e' ∧ c ≠ 'E') :
    IS.readRat ⟨' ' :: (doubleChars v ++ rest), false⟩
      = (some (round6 v), ⟨rest, false⟩) := by
  simp [IS.readRat, parseRatCore_cons_ws ' ' _ (by decide),
    parseRatCore_doubleChars v rest hrest]

theorem readToken_exact (tk rest : List Char) (htk : tk ≠ [])
    (hns : ∀ c ∈ tk, isWs c = false)
    (hrest : ∀ c, rest.head? = some c → isWs c = true) :
    IS.readToken ⟨tk ++ rest, false⟩ = (⟨tk⟩, ⟨rest, false⟩) := by
  have hd : dropWs (tk ++ rest) = tk ++ rest := by
    apply dropWs_not_ws
    intro c hc
    rw [head?_append_of_ne_nil _ _ htk] at hc
    exact hns c (List.mem_of_mem_head? hc)
  have hspan : spanP (fun c => !(isWs c)) (tk ++ rest) = (tk, rest) := by
    apply spanP_split
    · intro c hc
      simp [hns c hc]
    · intro c hc
      simp [hrest c hc]
  simp [IS.readToken, hd, hspan, htk]

theorem getLine_exact (ln rest : List Char) (h : '\n' ∉ ln) :
    IS.getLine ⟨ln ++ '\n' :: rest, false⟩ = (some ln, ⟨rest, false⟩) := by
  have hsplit := lineSplit_append ln rest h
  cases hln : ln ++ '\n' :: rest with
  | nil => exact absurd hln (by simp)
  | cons c cs =>
    simp only [IS.getLine, Bool.false_eq_true, if_false, ← hln, hsplit]

theorem ignore_cons (c : Char) (cs : List Char) :
    (IS.mk (c :: cs) false).ignore = ⟨cs, false⟩ := by
  simp [IS.ignore]

theorem parse3_wf (n d s : List Char) (hn : '|' ∉ n) (hd : '|' ∉ d) :
    parse3 (n ++ '|' :: (d ++ '|' :: s)) = (⟨n⟩, ⟨d⟩, ⟨s⟩) := by
  unfold parse3
  rw [splitPipe_append n _ hn]
  simp only [splitPipe_append d s hd]

theorem head?_cons_not_digit {c : Char} (cs : List Char) (h : isDigitC c = false) :
    ∀ x, ((c :: cs) : List Char).head? = some x → isDigitC x = false := by
  intro x hx
  simp at hx
  subst hx
  exact h

theorem head?_cons_ws {c : Char} (cs : List Char) (h : isWs c = true) :
    ∀ x, ((c :: cs) : List Char).head? = some x → isWs x = true := by
  intro x hx
  simp at hx
  subst hx
  exact h

theorem token_chars_not_ws (tk : List Char) (h : tk.all (fun c => !(isWs c)) = true) :
    ∀ c ∈ tk, isWs c = false := by
  intro c hc
  have h2 := List.all_eq_true.mp h c hc
  simpa using h2

/-- Reading back one record line appends its read-back image: the double
field of a weight or blood-sugar record returns as the value the writer
printed at six significant digits. -/
theorem recRead (r : HealthRecord) (rest : List Char)
    (fuel : ℕ) (acc : List HealthRecord) :
    recLoop (fuel + 1) ⟨recordChars r ++ rest, false⟩ acc
      = recLoop fuel ⟨rest, false⟩ (acc ++ [readBackRecord r]) := by
  have hsp6 : ∀ (t : ℤ), ∀ c, ((' ' :: (intChars t ++ ('\n' :: rest))) : List Char).head?
      = some c → isDigitC c = false ∧ c ≠ '.' ∧ c ≠ 'e' ∧ c ≠ 'E' := by
    intro t c hc
    simp at hc
    subst hc
    exact ⟨by decide, by decide, by decide, by decide⟩
  cases r with
  | bp s d t =>
    have hshape : recordChars (.bp s d t) ++ rest
        = ['B', 'P'] ++ (' ' :: (intChars s ++ (' ' :: (intChars d ++
            (' ' :: (intChars t ++ ('\n' :: rest))))))) := by
      simp [recordChars, List.append_assoc]
    have h1 : IS.readToken ⟨['B', 'P'] ++ (' ' :: (intChars s ++ (' ' :: (intChars d ++
          (' ' :: (intChars t ++ ('\n' :: rest))))))), false⟩
        = ("BP", ⟨' ' :: (intChars s ++ (' ' :: (intChars d ++
            (' ' :: (intChars t ++ ('\n' :: rest)))))), false⟩) :=
      readToken_exact _ _ (by simp) (token_chars_not_ws _ (by decide))
        (head?_cons_ws _ (by decide))
    have h2 := readInt_sp s (' ' :: (intChars d ++ (' ' :: (intChars t ++ ('\n' :: rest)))))
      (head?_cons_not_digit _ (by decide))
    have h3 := readInt_sp d (' ' :: (intChars t ++ ('\n' :: rest)))
      (head?_cons_not_digit _ (by decide))
    have h4 := readInt_sp t ('\n' :: rest) (head?_cons_not_digit _ (by decide))
    rw [hshape]
    simp only [recLoop, h1, h2, h3, h4, ignore_cons, Option.getD_some, readBackRecord]
    norm_num
  | weight w t =>
    have hshape : recordChars (.weight w t) ++ rest
        = ['W', 'e', 'i', 'g', 'h', 't'] ++ (' ' :: (doubleChars w ++
            (' ' :: (intChars t ++ ('\n' :: rest))))) := by
      simp [recordChars, List.append_assoc]
    have h1 : IS.readToken ⟨['W', 'e', 'i', 'g', 'h', 't'] ++ (' ' :: (doubleChars w ++
          (' ' :: (intChars t ++ ('\n' :: rest))))), false⟩
        = ("Weight", ⟨' ' :: (doubleChars w ++ (' ' :: (intChars t ++ ('\n' :: rest)))),
            false⟩) :=
      readToken_exact _ _ (by simp) (token_chars_not_ws _ (by decide))
        (head?_cons_ws _ (by decide))
    have h2 := readRat_sp6 w (' ' :: (intChars t ++ ('\n' :: rest))) (hsp6 t)
    have h3 := readInt_sp t ('\n' :: rest) (head?_cons_not_digit _ (by decide))
    rw [hshape]
    simp only [recLoop, h1, h2, h3, ignore_cons, Option.getD_some, readBackRecord]
    rw [if_neg (show ¬("Weight" : String) = "BP" by decide)]
    simp
  | sugar v t =>
    have hshape : recordChars (.sugar v t) ++ rest
        = ['S', 'u', 'g', 'a', 'r'] ++ (' ' :: (doubleChars v ++
            (' ' :: (intChars t ++ ('\n' :: rest))))) := by
      simp [recordChars, List.append_assoc]
    have h1 : IS.readToken ⟨['S', 'u', 'g', 'a', 'r'] ++ (' ' :: (doubleChars v ++
          (' ' :: (intChars t ++ ('\n' :: rest))))), false⟩
        = ("Sugar", ⟨' ' :: (doubleChars v ++ (' ' :: (intChars t ++ ('\n' :: rest)))),
            false⟩) :=
      readToken_exact _ _ (by simp) (token_chars_not_ws _ (by decide))
        (head?_cons_ws _ (by decide))
    have h2 := readRat_sp6 v (' ' :: (intChars t ++ ('\n' :: rest))) (hsp6 t)
    have h3 := readInt_sp t ('\n' :: rest) (head?_cons_not_digit _ (by decide))
    rw [hshape]
    simp only [recLoop, h1, h2, h3, ignore_cons, Option.getD_some, readBackRecord]
    rw [if_neg (show ¬("Sugar" : String) = "BP" by decide),
      if_neg (show ¬("Sugar" : String) = "Weight" by decide)]
    simp

/-- Reading back one medication line appends exactly that medication. -/
theorem medRead (m : Medication)
    (hm : WFStr m.name ∧ WFStr m.dosage ∧ WFStr m.schedule)
    (rest : List Char) (fuel : ℕ) (acc : List Medication) :
    medLoop (fuel + 1) ⟨medChars m ++ rest, false⟩ acc
      = medLoop fuel ⟨rest, false⟩ (acc ++ [m]) := by
  obtain ⟨⟨hn1, hn2⟩, ⟨hd1, hd2⟩, ⟨hs1, hs2⟩⟩ := hm
  have hshape : medChars m ++ rest
      = (m.name.data ++ '|' :: (m.dosage.data ++ '|' :: m.schedule.data)) ++ '\n' :: rest := by
    simp [medChars, List.append_assoc]
  have hln : '\n' ∉ m.name.data ++ '|' :: (m.dosage.data ++ '|' :: m.schedule.data) := by
    intro hc
    rcases List.mem_append.mp hc with h | h
    · exact hn2 h
    · rcases List.mem_cons.mp h with h | h
      · exact absurd h (by decide)
      · rcases List.mem_append.mp h with h | h
        · exact hd2 h
        · rcases List.mem_cons.mp h with h | h
          · exact absurd h (by decide)
          · exact hs2 h
  have hgl := getLine_exact _ rest hln
  have hp3 := parse3_wf m.name.data m.dosage.data m.schedule.data hn1 hd1
  rw [hshape]
  simp only [medLoop, hgl, Option.getD_some, hp3, string_mk_data]

/-- Reading back one reminder line appends exactly that reminder. -/
theorem remRead (r : Reminder)
    (hr : WFStr r.message ∧ WFStr r.date ∧ WFStr r.time)
    (rest : List Char) (fuel : ℕ) (acc : List Reminder) :
    remLoop (fuel + 1) ⟨remChars r ++ rest, false⟩ acc
      = remLoop fuel ⟨rest, false⟩ (acc ++ [r]) := by
  obtain ⟨⟨hn1, hn2⟩, ⟨hd1, hd2⟩, ⟨hs1, hs2⟩⟩ := hr
  have hshape : remChars r ++ rest
      = (r.message.data ++ '|' :: (r.date.data ++ '|' :: r.time.data)) ++ '\n' :: rest := by
    simp [remChars, List.append_assoc]
  have hln : '\n' ∉ r.message.data ++ '|' :: (r.date.data ++ '|' :: r.time.data) := by
    intro hc
    rcases List.mem_append.mp hc with h | h
    · exact hn2 h
    · rcases List.mem_cons.mp h with h | h
      · exact absurd h (by decide)
      · rcases List.mem_append.mp h with h | h
        · exact hd2 h
        · rcases List.mem_cons.mp h with h | h
          · exact absurd h (by decide)
          · exact hs2 h
  have hgl := getLine_exact _ rest hln
  have hp3 := parse3_wf r.message.data r.date.data r.time.data hn1 hd1
  rw [hshape]
  simp only [remLoop, hgl, Option.getD_some, hp3, string_mk_data]

/-- The record loop consumes exactly the written record lines, appending
the read-back image of each. -/
theorem recLoop_blocks (rs : List HealthRecord)
    (rest : List Char) (acc : List HealthRecord) :
    recLoop rs.length ⟨(rs.map recordChars).flatten ++ rest, false⟩ acc
      = (acc ++ rs.map readBackRecord, ⟨rest, false⟩) := by
  induction rs generalizing acc with
  | nil => simp [recLoop]
  | cons r rs ih =>
    have hshape : (((r :: rs).map recordChars).flatten : List Char) ++ rest
        = recordChars r ++ ((rs.map recordChars).flatten ++ rest) := by
      simp [List.append_assoc]
    rw [List.length_cons, hshape, recRead r _ _ _, ih]
    simp

/-- The medication loop consumes exactly the written medication lines. -/
theorem medLoop_blocks (ms : List Medication)
    (hwf : ∀ m ∈ ms, WFStr m.name ∧ WFStr m.dosage ∧ WFStr m.schedule)
    (rest : List Char) (acc : List Medication) :
    medLoop ms.length ⟨(ms.map medChars).flatten ++ rest, false⟩ acc
      = (acc ++ ms, ⟨rest, false⟩) := by
  induction ms generalizing acc with
  | nil => simp [medLoop]
  | cons m ms ih =>
    have hshape : (((m :: ms).map medChars).flatten : List Char) ++ rest
        = medChars m ++ ((ms.map medChars).flatten ++ rest) := by
      simp [List.append_assoc]
    rw [List.length_cons, hshape, medRead m (hwf m (by simp)) _ _ _,
      ih (fun x hx => hwf x (by simp [hx]))]
    simp

/-- The reminder loop consumes exactly the written reminder lines. -/
theorem remLoop_blocks (rs : List Reminder)
    (hwf : ∀ r ∈ rs, WFStr r.message ∧ WFStr r.date ∧ WFStr r.time)
    (rest : List Char) (acc : List Reminder) :
    remLoop rs.length ⟨(rs.map remChars).flatten ++ rest, false⟩ acc
      = (acc ++ rs, ⟨rest, false⟩) := by
  induction rs generalizing acc with
  | nil => simp [remLoop]
  | cons r rs ih =>
    have hshape : (((r :: rs).map remChars).flatten : List Char) ++ rest
        = remChars r ++ ((rs.map remChars).flatten ++ rest) := by
      simp [List.append_assoc]
    rw [List.length_cons, hshape, remRead r (hwf r (by simp)) _ _ _,
      ih (fun x hx => hwf x (by simp [hx]))]
    simp

theorem int_toNat_cast (n : ℕ) : ((n : ℤ)).toNat = n := rfl

/-- Reading a count line written by `saveData`. -/
theorem readCount (n : ℕ) (tail : List Char) :
    IS.readInt ⟨natChars n ++ '\n' :: tail, false⟩ = (some (n : ℤ), ⟨'\n' :: tail, false⟩) := by
  have h := readInt_exact (n : ℤ) ('\n' :: tail) (head?_cons_not_digit _ (by decide))
  rwa [intChars_natCast] at h

/-- Reading back one whole patient block appends the read-back image of
that patient (same fields, each record replaced by its read-back image);
only the text fields need to be safe for the format. -/
theorem loadLoop_cons (p : Patient) (hp : WFPatientText p) (rest : List Char)
    (fuel : ℕ) (acc : List Patient) (msgs : List Msg) :
    loadLoop (fuel + 1) ⟨patientBlock p ++ rest, false⟩ acc msgs
      = loadLoop fuel ⟨rest, false⟩ (acc ++ [readBackPatient p]) msgs := by
  obtain ⟨⟨hn1, hn2⟩, ⟨hc1, hc2⟩, hmed, hrem⟩ := hp
  have hshape : patientBlock p ++ rest
      = (p.name.data ++ '|' :: (intChars p.age ++ '|' :: p.contactInfo.data)) ++ '\n' ::
        (natChars p.records.length ++ '\n' ::
          ((p.records.map recordChars).flatten ++
            (natChars p.medications.length ++ '\n' ::
              ((p.medications.map medChars).flatten ++
                (natChars p.reminders.length ++ '\n' ::
                  ((p.reminders.map remChars).flatten ++ rest)))))) := by
    simp [patientBlock, List.append_assoc]
  have hln : '\n' ∉ p.name.data ++ '|' :: (intChars p.age ++ '|' :: p.contactInfo.data) := by
    intro hc
    rcases List.mem_append.mp hc with h | h
    · exact hn2 h
    · rcases List.mem_cons.mp h with h | h
      · exact absurd h (by decide)
      · rcases List.mem_append.mp h with h | h
        · exact newline_not_mem_intChars _ h
        · rcases List.mem_cons.mp h with h | h
          · exact absurd h (by decide)
          · exact hc2 h
  have hgl := getLine_exact
    (p.name.data ++ '|' :: (intChars p.age ++ '|' :: p.contactInfo.data))
    (natChars p.records.length ++ '\n' ::
      ((p.records.map recordChars).flatten ++
        (natChars p.medications.length ++ '\n' ::
          ((p.medications.map medChars).flatten ++
            (natChars p.reminders.length ++ '\n' ::
              ((p.reminders.map remChars).flatten ++ rest)))))) hln
  have hph : parseHeader (p.name.data ++ '|' :: (intChars p.age ++ '|' :: p.contactInfo.data))
      = some (p.name, intChars p.age, p.contactInfo) := by
    unfold parseHeader
    rw [splitPipe_append _ _ hn1]
    simp only [splitPipe_append _ _ (pipe_not_mem_intChars p.age), string_mk_data]
  rw [hshape]
  simp only [loadLoop, hgl, hph, stoi_intChars, readCount, ignore_cons, int_toNat_cast,
    recLoop_blocks p.records _ [], medLoop_blocks p.medications hmed _ [],
    remLoop_blocks p.reminders hrem _ [], List.nil_append]
  rfl

/-- The patient loop consumes exactly the written patient blocks, with fuel
left over, appending the read-back image of each. -/

theorem loadLoop_blocks (ps : List Patient) (hwf : ∀ p ∈ ps, WFPatientText p) (fuel : ℕ)
    (rest : List Char) (acc : List Patient) (msgs : List Msg) :
    loadLoop (ps.length + fuel) ⟨(ps.map patientBlock).flatten ++ rest, false⟩ acc msgs
      = loadLoop fuel ⟨rest, false⟩ (acc ++ ps.map readBackPatient) msgs := by
  induction ps generalizing acc with
  | nil => simp
  | cons p ps ih =>
    have hshape : (((p :: ps).map patientBlock).flatten : List Char) ++ rest
        = patientBlock p ++ ((ps.map patientBlock).flatten ++ rest) := by
      simp [List.append_assoc]
    have hlen : (p :: ps).length + fuel = (ps.length + fuel) + 1 := by
      simp only [List.length_cons]
      omega
    rw [hlen, hshape, loadLoop_cons p (hwf p (by simp)) _ _ _ _,
      ih (fun x hx => hwf x (by simp [hx]))]
    simp

/-- A well-formed record is fixed by the read-back. -/
theorem readBackRecord_eq_self (r : HealthRecord) (hr : WFRecord r) :
    readBackRecord r = r := by
  cases r with
  | bp s d t => rfl
  | weight w t =>
    rw [show readBackRecord (.weight w t) = .weight (round6 w) t from rfl, hr]
  | sugar v t =>
    rw [show readBackRecord (.sugar v t) = .sugar (round6 v) t from rfl, hr]

/-- A list of well-formed records is fixed elementwise by the read-back. -/
theorem map_readBack_eq_self (rs : List HealthRecord) (h : ∀ r ∈ rs, WFRecord r) :
    rs.map readBackRecord = rs := by
  induction rs with
  | nil => rfl
  | cons r rest ih =>
    rw [List.map_cons, readBackRecord_eq_self r (h r (by simp)),
      ih (fun x hx => h x (by simp [hx]))]

/-- A well-formed patient is fixed by the read-back. -/
theorem readBackPatient_eq_self (p : Patient) (hp : WFPatient p) :
    readBackPatient p = p := by
  obtain ⟨-, hrec⟩ := hp
  unfold readBackPatient
  rw [map_readBack_eq_self p.records hrec]

/-- A well-formed collection is fixed elementwise by the read-back. -/
theorem maps_readBack (ps : List Patient) (h : WFCollection ps) :
    ps.map readBackPatient = ps := by
  induction ps with
  | nil => rfl
  | cons p rest ih =>
    rw [List.map_cons, readBackPatient_eq_self p (h p (by simp)),
      ih (fun x hx => h x (by simp [hx]))]

theorem decode_recordRow (pid : ℤ) (r : HealthRecord) :
    decodeRecordRow (recordRow pid r) = some r := by
  cases r with
  | bp s d t =>
    have htr : ∀ z : ℤ, qTruncToInt ((z : ℤ) : ℚ) = z := by
      intro z
      rw [qTruncToInt, Rat.num_intCast, Rat.den_intCast]
      simp [Int.tdiv_one]
    simp [recordRow, decodeRecordRow, htr]
  | weight w t =>
    rw [recordRow, decodeRecordRow]
    rw [if_neg (by simp), if_pos rfl]
  | sugar v t =>
    rw [recordRow, decodeRecordRow]
    rw [if_neg (by simp), if_neg (by simp), if_pos rfl]

theorem filterMap_some_of_eq {α : Type} (g : α → Option α) (l : List α)
    (h : ∀ x ∈ l, g x = some x) : l.filterMap g = l := by
  induction l with
  | nil => rfl
  | cons a l ih =>
    rw [List.filterMap_cons, h a (by simp), ih (fun x hx => h x (by simp [hx]))]

theorem med_rows_roundtrip (pid : ℤ) (l : List Medication) :
    (l.map (fun m => (⟨pid, m.name, m.dosage, m.schedule⟩ : MedRow))).map
      (fun m => (⟨m.name, m.dosage, m.schedule⟩ : Medication)) = l := by
  induction l with
  | nil => rfl
  | cons a l ih => simp [ih]

theorem rem_rows_roundtrip (pid : ℤ) (l : List Reminder) :
    (l.map (fun r => (⟨pid, r.message, r.date, r.time⟩ : RemRow))).map
      (fun r => (⟨r.message, r.date, r.time⟩ : Reminder)) = l := by
  induction l with
  | nil => rfl
  | cons a l ih => simp [ih]

theorem insertPatient_inv (db : DB) (hdb : DBInv db) (p : Patient) :
    DBInv (insertPatient db p) := by
  obtain ⟨h1, h2, h3, h4⟩ := hdb
  refine ⟨?_, ?_, ?_, ?_⟩ <;> intro r hr <;>
    simp only [insertPatient, List.mem_append, List.mem_map, List.mem_singleton] at hr ⊢
  · rcases hr with h | h
    · have := h1 r h
      omega
    · subst h
      simp
  · rcases hr with h | h
    · have := h2 r h
      omega
    · obtain ⟨y, _, hy⟩ := h
      subst hy
      cases y <;> simp [recordRow]
  · rcases hr with h | h
    · have := h3 r h
      omega
    · obtain ⟨y, _, hy⟩ := h
      subst hy
      simp
  · rcases hr with h | h
    · have := h4 r h
      omega
    · obtain ⟨y, _, hy⟩ := h
      subst hy
      simp

theorem loadPatients_insert (db : DB) (hdb : DBInv db) (p : Patient)
    (prior prior' : List Patient) :
    loadPatients (insertPatient db p) prior = loadPatients db prior' ++ [p] := by
  obtain ⟨h1, h2, h3, h4⟩ := hdb
  rw [loadPatients, loadPatients, insertPatient]
  dsimp only
  rw [List.map_append]
  congr 1
  · apply List.map_congr_left
    intro row hrow
    have hne : db.nextId ≠ row.id := (h1 row hrow).ne'
    have hrfil : (p.records.map (recordRow db.nextId)).filter
        (fun r => r.patient_id == row.id) = [] := by
      apply List.filter_eq_nil_iff.mpr
      intro x hx
      obtain ⟨y, _, hy⟩ := List.mem_map.mp hx
      subst hy
      cases y <;> simp [recordRow, hne]
    have hmfil : (p.medications.map
          (fun m => (⟨db.nextId, m.name, m.dosage, m.schedule⟩ : MedRow))).filter
        (fun r => r.patient_id == row.id) = [] := by
      apply List.filter_eq_nil_iff.mpr
      intro x hx
      obtain ⟨y, _, hy⟩ := List.mem_map.mp hx
      subst hy
      simp [hne]
    have hremfil : (p.reminders.map
          (fun r => (⟨db.nextId, r.message, r.date, r.time⟩ : RemRow))).filter
        (fun r => r.patient_id == row.id) = [] := by
      apply List.filter_eq_nil_iff.mpr
      intro x hx
      obtain ⟨y, _, hy⟩ := List.mem_map.mp hx
      subst hy
      simp [hne]
    rw [List.filter_append, hrfil, List.append_nil,
      List.filter_append, hmfil, List.append_nil,
      List.filter_append, hremfil, List.append_nil]
  · rw [List.map_cons, List.map_nil]
    have hrold : db.health_records.filter (fun r => r.patient_id == db.nextId) = [] := by
      apply List.filter_eq_nil_iff.mpr
      intro x hx
      simp [(h2 x hx).ne]
    have hmold : db.medications.filter (fun r => r.patient_id == db.nextId) = [] := by
      apply List.filter_eq_nil_iff.mpr
      intro x hx
      simp [(h3 x hx).ne]
    have hremold : db.reminders.filter (fun r => r.patient_id == db.nextId) = [] := by
      apply List.filter_eq_nil_iff.mpr
      intro x hx
      simp [(h4 x hx).ne]
    have hrnew : (p.records.map (recordRow db.nextId)).filter
        (fun r => r.patient_id == db.nextId) = p.records.map (recordRow db.nextId) := by
      apply List.filter_eq_self.mpr
      intro x hx
      obtain ⟨y, _, hy⟩ := List.mem_map.mp hx
      subst hy
      cases y <;> simp [recordRow]
    have hmnew : (p.medications.map
          (fun m => (⟨db.nextId, m.name, m.dosage, m.schedule⟩ : MedRow))).filter
        (fun r => r.patient_id == db.nextId) = p.medications.map
          (fun m => (⟨db.nextId, m.name, m.dosage, m.schedule⟩ : MedRow)) := by
      apply List.filter_eq_self.mpr
      intro x hx
      obtain ⟨y, _, hy⟩ := List.mem_map.mp hx
      subst hy
      simp
    have hremnew : (p.reminders.map
          (fun r => (⟨db.nextId, r.message, r.date, r.time⟩ : RemRow))).filter
        (fun r => r.patient_id == db.nextId) = p.reminders.map
          (fun r => (⟨db.nextId, r.message, r.date, r.time⟩ : RemRow)) := by
      apply List.filter_eq_self.mpr
      intro x hx
      obtain ⟨y, _, hy⟩ := List.mem_map.mp hx
      subst hy
      simp
    rw [List.filter_append, hrold, List.nil_append, hrnew,
      List.filter_append, hmold, List.nil_append, hmnew,
      List.filter_append, hremold, List.nil_append, hremnew,
      List.filterMap_map,
      filterMap_some_of_eq (decodeRecordRow ∘ recordRow db.nextId) p.records
        (fun x _ => decode_recordRow db.nextId x),
      med_rows_roundtrip, rem_rows_roundtrip]

theorem loadPatients_foldl (ps : List Patient) (db : DB) (hdb : DBInv db)
    (prior prior' : List Patient) :
    loadPatients (ps.foldl insertPatient db) prior = loadPatients db prior' ++ ps := by
  induction ps generalizing db with
  | nil => simp [loadPatients]
  | cons p ps ih =>
    rw [List.foldl_cons, ih (insertPatient db p) (insertPatient_inv db hdb p),
      loadPatients_insert db hdb p prior' prior']
    simp

/-- Relational round-trip: a full-replace save followed by a load
reproduces the in-memory collection exactly, whatever was stored before
and whatever was in memory before the load. -/

theorem loadPatients_saveAllPatients (db : DB) (ps : List Patient)
    (prior : List Patient) :
    loadPatients (saveAllPatients db ps) prior = ps := by
  rw [saveAllPatients,
    loadPatients_foldl ps _ (by exact ⟨by simp, by simp, by simp, by simp⟩) prior prior]
  simp [loadPatients]

/-! ## String order equivalence -/

theorem strLtB_iff (a b : List Char) : strLtB a b = true ↔ a < b := by
  induction a generalizing b with
  | nil =>
    cases b with
    | nil =>
      simp only [strLtB, Bool.false_eq_true, false_iff]
      intro h
      cases h
    | cons c cs =>
      simp only [strLtB, true_iff]
      exact List.Lex.nil
  | cons x xs ih =>
    cases b with
    | nil =>
      simp only [strLtB, Bool.false_eq_true, false_iff]
      intro h
      cases h
    | cons y ys =>
      by_cases hxy : x < y
      · simp only [strLtB, if_pos hxy, true_iff]
        exact List.Lex.rel hxy
      · by_cases hyx : y < x
        · simp only [strLtB, if_neg hxy, if_pos hyx, Bool.false_eq_true, false_iff]
          intro h
          cases h with
          | cons h => exact absurd hyx (lt_irrefl _)
          | rel h => exact hxy h
        · have heq : x = y := le_antisymm (not_lt.mp hyx) (not_lt.mp hxy)
          subst heq
          simp only [strLtB, if_neg hxy, if_neg hyx, ih ys]
          constructor
          · exact fun h => List.Lex.cons h
          · intro h
            cases h with
            | cons h => exact h
            | rel h => exact absurd h hxy

theorem strLeB_iff (a b : String) : strLeB a.data b.data = true ↔ a ≤ b := by
  constructor
  · intro h
    apply not_lt.mp
    intro hb
    have hl : b.data < a.data := String.lt_iff_toList_lt.mp hb
    rw [strLeB, (strLtB_iff _ _).mpr hl] at h
    simp at h
  · intro h
    have hnb : ¬(b.data < a.data) := fun hl =>
      absurd (String.lt_iff_toList_lt.mpr hl) (not_lt.mpr h)
    have hf : strLtB b.data a.data = false := by
      cases hcase : strLtB b.data a.data
      · rfl
      · exact absurd ((strLtB_iff _ _).mp hcase) hnb
    simp [strLeB, hf]

/-! ## Claim theorems -/

/-- C3: `Reminder::isDue` returns true iff the reminder's date equals
today's formatted date string and its time is lexicographically at most the
current formatted time string; in particular a reminder dated any other day
(e.g. yesterday) is not due regardless of its time.  The evaluation is a
pure function of the reminder and the instant, so repeated calls on an
unchanged reminder at the same instant agree by construction. -/

theorem claim_C3_isDue (r : Reminder) (todayDate currentTime : String) :
    (r.isDue todayDate currentTime = true ↔
      r.date = todayDate ∧ r.time ≤ currentTime)
    ∧ (r.date ≠ todayDate → r.isDue todayDate currentTime = false) := by
  constructor
  · rw [Reminder.isDue, Bool.and_eq_true, beq_iff_eq, strLeB_iff]
  · intro hne
    rw [Reminder.isDue]
    simp [hne]

theorem claim_C3_witness :
    ((⟨"take meds", "2025-06-01", "08:00"⟩ : Reminder).isDue "2025-06-01" "09:00" = true)
    ∧ ((⟨"take meds", "2025-06-01", "10:00"⟩ : Reminder).isDue "2025-06-01" "09:00" = false)
    ∧ ((⟨"take meds", "2025-05-31", "08:00"⟩ : Reminder).isDue "2025-06-01" "23:59" = false) :=
  ⟨(claim_C3_isDue ⟨"take meds", "2025-06-01", "08:00"⟩ "2025-06-01" "09:00").1.mpr
      ⟨rfl, (strLeB_iff "08:00" "09:00").mp (by decide)⟩,
   by decide,
   (claim_C3_isDue ⟨"take meds", "2025-05-31", "08:00"⟩ "2025-06-01" "23:59").2 (by decide)⟩

theorem firstWeightVal_no_weight (l : List HealthRecord)
    (h : ∀ r ∈ l, r.isWeight = false) : firstWeightVal l = 0 := by
  induction l with
  | nil => rfl
  | cons r l ih =>
    cases r with
    | bp s d t =>
      rw [show firstWeightVal (HealthRecord.bp s d t :: l) = firstWeightVal l from rfl]
      exact ih fun x hx => h x (by simp [hx])
    | weight w t =>
      have hw := h (HealthRecord.weight w t) (by simp)
      simp [HealthRecord.isWeight] at hw
    | sugar v t =>
      rw [show firstWeightVal (HealthRecord.sugar v t :: l) = firstWeightVal l from rfl]
      exact ih fun x hx => h x (by simp [hx])

theorem firstWeightVal_skip (l : List HealthRecord)
    (h : ∀ r ∈ l, r.isWeight = false) (w : ℚ) (t : ℤ) (l2 : List HealthRecord) :
    firstWeightVal (l ++ HealthRecord.weight w t :: l2) = w := by
  induction l with
  | nil => rfl
  | cons r l ih =>
    cases r with
    | bp s d ts =>
      rw [List.cons_append, show firstWeightVal (HealthRecord.bp s d ts ::
        (l ++ HealthRecord.weight w t :: l2))
        = firstWeightVal (l ++ HealthRecord.weight w t :: l2) from rfl]
      exact ih fun x hx => h x (by simp [hx])
    | weight w2 ts =>
      have hw := h (HealthRecord.weight w2 ts) (by simp)
      simp [HealthRecord.isWeight] at hw
    | sugar v ts =>
      rw [List.cons_append, show firstWeightVal (HealthRecord.sugar v ts ::
        (l ++ HealthRecord.weight w t :: l2))
        = firstWeightVal (l ++ HealthRecord.weight w t :: l2) from rfl]
      exact ih fun x hx => h x (by simp [hx])

theorem lastWeight_append_weight (xs : List HealthRecord) (w : ℚ) (t : ℤ)
    (ys : List HealthRecord) (hys : ∀ r ∈ ys, r.isWeight = false) :
    lastWeight (xs ++ HealthRecord.weight w t :: ys) = w := by
  rw [lastWeight, List.reverse_append, List.reverse_cons, List.append_assoc,
    List.singleton_append]
  exact firstWeightVal_skip ys.reverse
    (fun x hx => hys x (List.mem_reverse.mp hx)) w t xs.reverse

/-- C4: the most-recent-weight lookup scans the records in reverse
insertion order and returns the weight of the first `WeightRecord` it
meets; when no `WeightRecord` exists the scan yields the sentinel `0` and
`calculateAndDisplayBMI` reports no data.  Appending `Weight 80` and then
`Weight 75` gives `75` even though the second carries an earlier
timestamp. -/

theorem claim_C4_lastWeight :
    (∀ (xs : List HealthRecord) (w : ℚ) (t : ℤ) (ys : List HealthRecord),
      (∀ r ∈ ys, r.isWeight = false) →
      lastWeight (xs ++ HealthRecord.weight w t :: ys) = w)
    ∧ (∀ rs : List HealthRecord, (∀ r ∈ rs, r.isWeight = false) →
        lastWeight rs = 0 ∧ ∀ h : ℚ, calculateAndDisplayBMI rs h = .noWeight)
    ∧ lastWeight [.weight 80 100, .weight 75 50] = 75 := by
  refine ⟨lastWeight_append_weight, ?_, by decide⟩
  intro rs hrs
  have h0 : lastWeight rs = 0 :=
    firstWeightVal_no_weight rs.reverse fun x hx => hrs x (List.mem_reverse.mp hx)
  exact ⟨h0, fun h => by simp [calculateAndDisplayBMI, h0]⟩

theorem claim_C4_witness :
    lastWeight ([HealthRecord.weight 80 100] ++ HealthRecord.weight 75 50 :: []) = 75
    ∧ calculateAndDisplayBMI [.bp 120 80 0] (7/4) = .noWeight :=
  ⟨claim_C4_lastWeight.1 [.weight 80 100] 75 50 [] (by decide),
   (claim_C4_lastWeight.2.1 [.bp 120 80 0] (by decide)).2 (7/4)⟩

/-- C10 (implicit): when the most-recently-inserted `WeightRecord` has a
non-positive value, the reverse scan stops at it, `lastWeight ≤ 0` holds,
and `calculateAndDisplayBMI` takes the "no weight records found" path —
even when an earlier record (inside `xs`) carries a positive weight. -/

theorem claim_C10_masking (xs ys : List HealthRecord) (w2 : ℚ) (t2 : ℤ) (h : ℚ)
    (hys : ∀ r ∈ ys, r.isWeight = false) (hw : w2 ≤ 0) :
    calculateAndDisplayBMI (xs ++ HealthRecord.weight w2 t2 :: ys) h = .noWeight := by
  have hl := lastWeight_append_weight xs w2 t2 ys hys
  simp [calculateAndDisplayBMI, hl, hw]

theorem claim_C10_witness :
    calculateAndDisplayBMI ([HealthRecord.weight 70 100] ++
      HealthRecord.weight (-1) 200 :: []) (7/4) = .noWeight :=
  claim_C10_masking [.weight 70 100] [] (-1) 200 (7/4) (by decide) (by decide)

/-- C5: `calculateAndDisplayBMI` reports the non-fatal "no weight" failure
exactly when the reverse scan yields no positive weight (`lastWeight ≤ 0`,
the code's notion of "no most-recent weight available"), reports the
invalid-height failure exactly when a weight is available but the entered
height is ≤ 0, and otherwise computes `weight / height²` from the
most-recent weight and classifies it with the boundaries
`< 18.5` / `[18.5, 25)` / `[25, 30)` / `≥ 30`. -/

theorem claim_C5_bmi (records : List HealthRecord) (h : ℚ) (b : ℚ) :
    (calculateAndDisplayBMI records h = .noWeight ↔ lastWeight records ≤ 0)
    ∧ (0 < lastWeight records →
        (calculateAndDisplayBMI records h = .invalidHeight ↔ h ≤ 0))
    ∧ (0 < lastWeight records → 0 < h →
        calculateAndDisplayBMI records h
          = .ok (lastWeight records / (h * h))
              (bmiCategory (lastWeight records / (h * h))))
    ∧ (bmiCategory b = "Underweight" ↔ b < 18.5)
    ∧ (bmiCategory b = "Normal weight" ↔ 18.5 ≤ b ∧ b < 25)
    ∧ (bmiCategory b = "Overweight" ↔ 25 ≤ b ∧ b < 30)
    ∧ (bmiCategory b = "Obesity" ↔ 30 ≤ b) := by
  have hcat : ∀ x : ℚ, (bmiCategory x = "Underweight" ↔ x < 18.5)
      ∧ (bmiCategory x = "Normal weight" ↔ 18.5 ≤ x ∧ x < 25)
      ∧ (bmiCategory x = "Overweight" ↔ 25 ≤ x ∧ x < 30)
      ∧ (bmiCategory x = "Obesity" ↔ 30 ≤ x) := by
    intro x
    by_cases h1 : x < 18.5
    · rw [bmiCategory, if_pos h1]
      exact ⟨iff_of_true rfl h1,
        iff_of_false (by decide) (by intro h2; linarith [h2.1]),
        iff_of_false (by decide) (by intro h2; linarith [h2.1]),
        iff_of_false (by decide) (by intro h2; linarith)⟩
    · by_cases h2 : x < 25
      · rw [bmiCategory, if_neg h1, if_pos h2]
        exact ⟨iff_of_false (by decide) (fun h3 => h1 h3),
          iff_of_true rfl ⟨not_lt.mp h1, h2⟩,
          iff_of_false (by decide) (by intro h3; linarith [h3.1]),
          iff_of_false (by decide) (by intro h3; linarith)⟩
      · by_cases h3 : x < 30
        · rw [bmiCategory, if_neg h1, if_neg h2, if_pos h3]
          exact ⟨iff_of_false (by decide) (fun h4 => h1 h4),
            iff_of_false (by decide) (fun h4 => h2 h4.2),
            iff_of_true rfl ⟨not_lt.mp h2, h3⟩,
            iff_of_false (by decide) (by intro h4; linarith)⟩
        · rw [bmiCategory, if_neg h1, if_neg h2, if_neg h3]
          exact ⟨iff_of_false (by decide) (fun h4 => h1 h4),
            iff_of_false (by decide) (fun h4 => h2 h4.2),
            iff_of_false (by decide) (fun h4 => h3 h4.2),
            iff_of_true rfl (not_lt.mp h3)⟩
  refine ⟨?_, ?_, ?_, (hcat b).1, (hcat b).2.1, (hcat b).2.2.1, (hcat b).2.2.2⟩
  · by_cases h0 : lastWeight records ≤ 0
    · simp [calculateAndDisplayBMI, h0]
    · simp only [calculateAndDisplayBMI, if_neg h0]
      by_cases hh : h ≤ 0
      · simp [hh, h0]
      · simp [hh, h0]
  · intro hpos
    have h0 : ¬ lastWeight records ≤ 0 := by linarith
    by_cases hh : h ≤ 0
    · simp [calculateAndDisplayBMI, h0, hh]
    · simp [calculateAndDisplayBMI, h0, hh]
  · intro hpos hh
    have h0 : ¬ lastWeight records ≤ 0 := by linarith
    have h1 : ¬ h ≤ 0 := by linarith
    simp [calculateAndDisplayBMI, h0, h1]

theorem claim_C5_witness :
    calculateAndDisplayBMI [HealthRecord.weight 70 0] (7/4)
      = .ok (1120/49) "Normal weight"
    ∧ ((22.85 : ℚ) < 1120/49 ∧ (1120/49 : ℚ) < 22.87)
    ∧ calculateAndDisplayBMI [HealthRecord.weight 100 0] (8/5)
      = .ok (39.0625) "Obesity"
    ∧ calculateAndDisplayBMI [HealthRecord.weight 100 0] 0 = .invalidHeight := by
  have hl70 : lastWeight [HealthRecord.weight 70 0] = 70 := rfl
  have hl100 : lastWeight [HealthRecord.weight 100 0] = 100 := rfl
  refine ⟨?_, by norm_num, ?_, ?_⟩
  · rw [(claim_C5_bmi [HealthRecord.weight 70 0] (7/4) 0).2.2.1
      (by rw [hl70]; norm_num) (by norm_num), hl70]
    have hval : (70 : ℚ) / (7/4 * (7/4)) = 1120/49 := by norm_num
    rw [hval, bmiCategory, if_neg (by norm_num), if_pos (by norm_num)]
  · rw [(claim_C5_bmi [HealthRecord.weight 100 0] (8/5) 0).2.2.1
      (by rw [hl100]; norm_num) (by norm_num), hl100]
    have hval : (100 : ℚ) / (8/5 * (8/5)) = 39.0625 := by norm_num
    rw [hval, bmiCategory, if_neg (by norm_num), if_neg (by norm_num),
      if_neg (by norm_num)]
  · exact ((claim_C5_bmi [HealthRecord.weight 100 0] 0 0).2.1
      (by rw [hl100]; norm_num)).mpr le_rfl

/-- C8: the blood-pressure alert is HIGH iff systolic ≥ 140 or
diastolic ≥ 90, LOW iff that fails and systolic ≤ 90 or diastolic ≤ 60
(the HIGH branch is tested first, so a reading meeting both sets of
thresholds — e.g. 90/90 — is HIGH), else normal; weight records carry no
alert tier; blood sugar is HIGH exactly when the value ≥ 126 and LOW
exactly when it is < 70. -/

theorem claim_C8_alerts (s d : ℤ) (v w : ℚ) (t : ℤ) :
    (bpAlert s d = .high ↔ (140 ≤ s ∨ 90 ≤ d))
    ∧ (bpAlert s d = .low ↔ (¬(140 ≤ s ∨ 90 ≤ d) ∧ (s ≤ 90 ∨ d ≤ 60)))
    ∧ (bpAlert s d = .normal ↔ (¬(140 ≤ s ∨ 90 ≤ d) ∧ ¬(s ≤ 90 ∨ d ≤ 60)))
    ∧ bpAlert 90 90 = .high
    ∧ recordAlert (.weight w t) = none
    ∧ recordAlert (.bp s d t) = some (bpAlert s d)
    ∧ recordAlert (.sugar v t) = some (sugarAlert v)
    ∧ (sugarAlert v = .high ↔ 126 ≤ v)
    ∧ (sugarAlert v = .low ↔ v < 70) := by
  have hbp : (bpAlert s d = .high ↔ (140 ≤ s ∨ 90 ≤ d))
      ∧ (bpAlert s d = .low ↔ (¬(140 ≤ s ∨ 90 ≤ d) ∧ (s ≤ 90 ∨ d ≤ 60)))
      ∧ (bpAlert s d = .normal ↔ (¬(140 ≤ s ∨ 90 ≤ d) ∧ ¬(s ≤ 90 ∨ d ≤ 60))) := by
    by_cases h1 : (140 ≤ s ∨ 90 ≤ d)
    · rw [bpAlert, if_pos h1]
      exact ⟨iff_of_true rfl h1,
        iff_of_false (by decide) (fun h => h.1 h1),
        iff_of_false (by decide) (fun h => h.1 h1)⟩
    · by_cases h2 : (s ≤ 90 ∨ d ≤ 60)
      · rw [bpAlert, if_neg h1, if_pos h2]
        exact ⟨iff_of_false (by decide) h1,
          iff_of_true rfl ⟨h1, h2⟩,
          iff_of_false (by decide) (fun h => h.2 h2)⟩
      · rw [bpAlert, if_neg h1, if_neg h2]
        exact ⟨iff_of_false (by decide) h1,
          iff_of_false (by decide) (fun h => h2 h.2),
          iff_of_true rfl ⟨h1, h2⟩⟩
  have hsug : (sugarAlert v = .high ↔ 126 ≤ v) ∧ (sugarAlert v = .low ↔ v < 70) := by
    by_cases h1 : (126 : ℚ) ≤ v
    · rw [sugarAlert, if_pos h1]
      exact ⟨iff_of_true rfl h1, iff_of_false (by decide) (by intro h2; linarith)⟩
    · by_cases h2 : v < 70
      · rw [sugarAlert, if_neg h1, if_pos h2]
        exact ⟨iff_of_false (by decide) h1, iff_of_true rfl h2⟩
      · rw [sugarAlert, if_neg h1, if_neg h2]
        exact ⟨iff_of_false (by decide) h1, iff_of_false (by decide) h2⟩
  exact ⟨hbp.1, hbp.2.1, hbp.2.2, by decide, rfl, rfl, rfl, hsug.1, hsug.2⟩

theorem claim_C8_witness :
    bpAlert 150 80 = .high ∧ bpAlert 90 90 = .high ∧ bpAlert 120 80 = .normal
    ∧ bpAlert 85 70 = .low ∧ sugarAlert 126 = .high ∧ sugarAlert 69 = .low
    ∧ sugarAlert 100 = .normal ∧ recordAlert (.weight 80 0) = none :=
  ⟨(claim_C8_alerts 150 80 0 0 0).1.mpr (Or.inl (by decide)),
   (claim_C8_alerts 90 90 0 0 0).2.2.2.1,
   by decide, by decide,
   (claim_C8_alerts 0 0 126 0 0).2.2.2.2.2.2.2.1.mpr (by decide),
   (claim_C8_alerts 0 0 69 0 0).2.2.2.2.2.2.2.2.mpr (by decide),
   by decide, rfl⟩

/-- C7: `loadData` validates the leading patient count: an unreadable
count, or one outside `[0, 10000]`, is reported as a non-fatal error and
the function returns with the caller's collection untouched — nothing is
loaded and nothing crashes. -/

theorem claim_C7_bounds (cs : List Char) (prior : List Patient) :
    (parseIntCore cs = none →
      loadData (some cs) prior = ⟨prior, [Msg.badPatientCount], false⟩)
    ∧ (∀ (n : ℤ) (rest : List Char), parseIntCore cs = some (n, rest) →
        (n < 0 ∨ n > 10000) →
        loadData (some cs) prior = ⟨prior, [Msg.unreasonableCount n], false⟩) := by
  constructor
  · intro h
    simp [loadData, IS.readInt, h]
  · intro n rest h hbad
    simp only [loadData, IS.readInt, Bool.false_eq_true, if_false, h]
    rw [if_pos hbad]

theorem claim_C7_witness :
    loadData (some "hello".data) [basePatient]
      = ⟨[basePatient], [Msg.badPatientCount], false⟩
    ∧ loadData (some "99999\nx".data) []
      = ⟨[], [Msg.unreasonableCount 99999], false⟩ :=
  ⟨(claim_C7_bounds "hello".data [basePatient]).1 (by decide),
   (claim_C7_bounds "99999\nx".data []).2 99999 ('\n' :: ['x'])
     (by decide) (Or.inr (by decide))⟩

/-- C6 (counterexample): the claim says the in-memory collection equals
the decoded store contents after load regardless of prior memory, for
both backends, with a missing store decoding to the empty collection.
The flat `loadData` violates this: with a nonexistent file and a
non-empty prior collection it leaves the prior patient in place instead
of producing the empty collection. -/

theorem claim_C6_counterexample :
    (loadData none [basePatient]).patients = [basePatient]
    ∧ loadPatients emptyDB [basePatient] = []
    ∧ ([basePatient] : List Patient) ≠ [] := by decide

/-- C6 (amended): the relational `loadPatients` does replace wholesale —
its result is independent of the prior in-memory collection and an empty
store yields the empty collection; the flat `loadData` instead appends
the decoded file contents to the caller's vector without clearing it, so
it equals the store contents only when the prior collection was empty,
and a nonexistent or empty flat file is a reported non-error that loads
nothing (leaving the prior collection as it was). -/

theorem claim_C6_amended (db : DB) (prior prior2 ps : List Patient) :
    loadPatients db prior = loadPatients db prior2
    ∧ (db.patients = [] → loadPatients db prior = [])
    ∧ loadData none prior = ⟨prior, [Msg.noPreviousData], false⟩
    ∧ loadData (some (saveData [])) prior = ⟨prior, [Msg.loadedOk], false⟩
    ∧ (WFCollection ps → ps.length ≤ 10000 →
        loadData (some (saveData ps)) prior
          = ⟨prior ++ ps, [Msg.loadedOk], false⟩) := by
  refine ⟨rfl, ?_, rfl, ?_, ?_⟩
  · intro h
    rw [loadPatients, h]
    rfl
  · have h := readCount 0 []
    simp only [loadData, saveData, List.length_nil, List.map_nil, List.flatten_nil, h,
      ignore_cons, int_toNat_cast]
    rw [if_neg (by omega)]
    simp [loadLoop]
  · intro hwf hlen
    have h := readCount ps.length ((ps.map patientBlock).flatten)
    simp only [loadData, saveData, h, ignore_cons, int_toNat_cast]
    rw [if_neg (by omega)]
    have hblocks := loadLoop_blocks ps (fun p hp => (hwf p hp).1) 0 [] prior []
    rw [List.append_nil, maps_readBack ps hwf] at hblocks
    rw [show ps.length = ps.length + 0 from rfl, hblocks]
    simp [loadLoop]

theorem claim_C6_witness :
    loadData (some (saveData [sampleP])) [basePatient]
      = ⟨[basePatient, sampleP], [Msg.loadedOk], false⟩ := by
  have h := (claim_C6_amended emptyDB [basePatient] [] [sampleP]).2.2.2.2
    (by decide) (by decide)
  simpa using h

/-- C9: the flat backend neither rejects nor escapes a reserved `'|'`
inside a text field — `Medication::save` writes the field verbatim — so a
medication named `"a|b"` is saved as the line `a|b|d|s`, which the loader
re-splits at the first two pipes: the collection decodes to a different
one (`Medication("a", "b", "d|s")`).  The spec itself calls this a defect
in the original code ("must be rejected or escaped, not silently
corrupted; original code does not guard this"), so the code, not the
claim, is wrong. -/

theorem claim_C9_pipe_corruption :
    (loadData (some (saveData [c9Patient])) []).patients
      = [⟨"Bob", 30, "c", [], [⟨"a", "b", "d|s"⟩], []⟩]
    ∧ (loadData (some (saveData [c9Patient])) []).patients ≠ [c9Patient] := by decide

/-- C2 (counterexample): the claim says every delimited line is checked
for its expected '|' separators and that the first malformed line aborts
the remaining load.  But only patient header lines are checked: in this
file the single medication line `badmedline` has no pipe at all, yet
loading does not stop — the patient is loaded together with a medication
whose three fields are all the whole line (C++ `substr` on `npos`), and
only the success message is printed. -/

theorem claim_C2_counterexample :
    loadData (some c2File) []
      = ⟨[⟨"Joe", 25, "c", [], [⟨"badmedline", "badmedline", "badmedline"⟩], []⟩],
         [Msg.loadedOk], false⟩ := by decide

/-- C2 (amended): only the patient header line is checked for its two '|'
separators.  For a file declaring `n` patients but containing only
`ps.length < n ≤ 10000` well-formed blocks, the loader stops at the first
missing or malformed header line, keeps exactly the fully parsed patients
(no partial patient), reports a read/parse error (followed by the
unconditional success message), and throws nothing; medication and
reminder lines are never checked — a pipe-free line parses into a
medication/reminder whose three fields are all the whole line, and
loading continues. -/

theorem claim_C2_header_abort (ps prior : List Patient) (n : ℕ) (extra : List Char)
    (hwf : WFCollection ps) (hlt : ps.length < n) (hle : n ≤ 10000) :
    (extra = [] →
      loadData (some (natChars n ++ '\n' :: ((ps.map patientBlock).flatten ++ extra))) prior
        = ⟨prior ++ ps, [Msg.errPatientLine, Msg.loadedOk], false⟩)
    ∧ (extra ≠ [] → parseHeader (lineSplit extra).1 = none →
      loadData (some (natChars n ++ '\n' :: ((ps.map patientBlock).flatten ++ extra))) prior
        = ⟨prior ++ ps, [Msg.errPatientParse, Msg.loadedOk], false⟩)
    ∧ (∀ line : List Char, '|' ∉ line → parse3 line = (⟨line⟩, ⟨line⟩, ⟨line⟩)) := by
  obtain ⟨k, hk⟩ : ∃ k, n = ps.length + (k + 1) := ⟨n - ps.length - 1, by omega⟩
  have hmain : loadData
      (some (natChars n ++ '\n' :: ((ps.map patientBlock).flatten ++ extra))) prior
      = loadLoop (k + 1) ⟨extra, false⟩ (prior ++ ps) [] := by
    have h := readCount n ((ps.map patientBlock).flatten ++ extra)
    simp only [loadData, h, ignore_cons, int_toNat_cast]
    rw [if_neg (by omega), hk, loadLoop_blocks ps (fun p hp => (hwf p hp).1) (k + 1)
      extra prior [], maps_readBack ps hwf]
  refine ⟨?_, ?_, ?_⟩
  · intro hex
    subst hex
    rw [hmain]
    simp [loadLoop, IS.getLine]
  · intro hex hph
    rw [hmain]
    obtain ⟨c, cs, hcs⟩ : ∃ c cs, extra = c :: cs := by
      cases extra with
      | nil => exact absurd rfl hex
      | cons c cs => exact ⟨c, cs, rfl⟩
    subst hcs
    have hgl : IS.getLine ⟨c :: cs, false⟩
        = (some (lineSplit (c :: cs)).1, ⟨(lineSplit (c :: cs)).2, false⟩) := by
      simp [IS.getLine]
    simp only [loadLoop, hgl, hph, List.nil_append]
  · intro line hline
    unfold parse3
    rw [splitPipe_none line hline]

theorem claim_C2_witness :
    loadData (some (natChars 3 ++ '\n' ::
        ((([basePatient, basePatient]).map patientBlock).flatten ++ []))) []
      = ⟨[basePatient, basePatient], [Msg.errPatientLine, Msg.loadedOk], false⟩ := by
  have h := (claim_C2_header_abort [basePatient, basePatient] [] 3 []
    (by decide) (by decide) (by decide)).1 rfl
  simpa using h

/-- Helper: the exact value of `lossyW` as a quotient of literals. -/
theorem lossyW_val : lossyW = (123456789 : ℚ) / 1000000 := by
  have h := Rat.num_div_den lossyW
  rw [show lossyW.num = 123456789 from rfl, show lossyW.den = 1000000 from rfl] at h
  rw [← h]
  push_cast
  ring

/-- Helper: the default six-digit formatting rounds `123.456789` to
`123.457`. -/

theorem lossyW_round : round6 lossyW = (123457 : ℚ) / 1000 := by
  have hm : mant6 lossyW = (123457, 2) := by decide
  unfold round6
  rw [if_neg (by decide), if_neg (by decide), hm]
  show sig6Val 123457 2 = (123457 : ℚ) / 1000
  unfold sig6Val
  rw [if_neg (by decide), show ((5 : ℤ) - 2).toNat = 3 from by decide]
  push_cast
  norm_num

/-- Helper: `123.456789` is altered by the default double formatting. -/
theorem lossyW_ne : round6 lossyW ≠ lossyW := by
  rw [lossyW_round, lossyW_val]
  norm_num

/-- Helper: the exact value of `wVal` as a quotient of literals. -/
theorem wVal_val : wVal = (145 : ℚ) / 2 := by
  have h := Rat.num_div_den wVal
  rw [show wVal.num = 145 from rfl, show wVal.den = 2 from rfl] at h
  rw [← h]
  push_cast
  ring

/-- Helper: `72.5` is printed exactly by the default double formatting. -/
theorem round6_wVal : round6 wVal = wVal := by
  have hm : mant6 wVal = (725000, 1) := by decide
  unfold round6
  rw [if_neg (by decide), if_neg (by decide), hm]
  show sig6Val 725000 1 = wVal
  unfold sig6Val
  rw [if_neg (by decide), show ((5 : ℤ) - 1).toNat = 4 from by decide, wVal_val]
  push_cast
  norm_num

/-- Helper: well-formedness of the weight-bearing sample patient. -/
theorem samplePW_wf : WFPatient samplePW := by
  refine ⟨by decide, ?_⟩
  intro r hr
  rcases List.mem_cons.mp hr with h | h
  · rw [h]; trivial
  · rcases List.mem_cons.mp h with h2 | h2
    · rw [h2]; exact round6_wVal
    · simp at h2

/-- C1 (counterexample): round-trip through the flat backend fails in two
independent ways.  First, a well-formed collection of 10001 patients
saves fine, but `loadData` rejects the leading count 10001 as beyond its
sane ceiling of 10000 and loads no patients at all.  Second, a patient
whose weight `123.456789` carries seven significant digits is silently
altered: `WeightRecord::save` writes the double at the default `ostream`
precision of six significant digits, so the stored line says `123.457`
and the collection that loads back differs from the one saved. -/

theorem claim_C1_counterexample :
    (WFCollection bigCollection
      ∧ (loadData (some (saveData bigCollection)) []).patients = []
      ∧ bigCollection ≠ [])
    ∧ (round6 lossyW ≠ lossyW
      ∧ (loadData (some (saveData [lossyPatient])) []).patients
          = [⟨"W", 1, "c", [.weight (round6 lossyW) 5], [], []⟩]
      ∧ (loadData (some (saveData [lossyPatient])) []).patients ≠ [lossyPatient]) := by
  have hlen : bigCollection.length = 10001 := by
    rw [bigCollection, List.length_replicate]
  have htext : WFPatientText lossyPatient := by decide
  have hload : loadData (some (saveData [lossyPatient])) []
      = ⟨[readBackPatient lossyPatient], [Msg.loadedOk], false⟩ := by
    have h := readCount ([lossyPatient] : List Patient).length
      (([lossyPatient].map patientBlock).flatten)
    simp only [loadData, saveData, h, ignore_cons, int_toNat_cast]
    rw [if_neg (by norm_num)]
    have hblocks := loadLoop_blocks [lossyPatient]
      (by intro p hp; rw [List.mem_singleton.mp hp]; exact htext) 0 [] [] []
    rw [List.append_nil] at hblocks
    rw [show ([lossyPatient] : List Patient).length
      = ([lossyPatient] : List Patient).length + 0 from rfl, hblocks]
    simp [loadLoop]
  refine ⟨⟨?_, ?_, ?_⟩, lossyW_ne, ?_, ?_⟩
  · intro p hp
    rw [bigCollection] at hp
    rw [List.eq_of_mem_replicate hp]
    decide
  · have h := readCount 10001 ((bigCollection.map patientBlock).flatten)
    simp only [saveData, hlen, loadData, h]
    rw [if_pos (by norm_num)]
  · intro h
    have h2 : bigCollection.length = 0 := by rw [h]; rfl
    rw [hlen] at h2
    exact absurd h2 (by norm_num)
  · rw [hload]
    rfl
  · rw [hload]
    intro hcontra
    have h2 : readBackPatient lossyPatient = lossyPatient := by
      simpa using hcontra
    have h3 := congrArg Patient.records h2
    have h4 : ([HealthRecord.weight (round6 lossyW) 5] : List HealthRecord)
        = [HealthRecord.weight lossyW 5] := h3
    injection h4 with h5 h6
    injection h5 with h7 h8
    exact lossyW_ne h7

/-- C1 (amended): round-trip holds for both backends for every well-formed
collection that the flat loader's bounds check accepts (at most 10000
patients), where well-formed now also requires every weight and
blood-sugar value to be printed exactly by the default six-digit double
formatting (`round6 v = v`): flat `saveData` then `loadData` into an
empty session reproduces the collection exactly — names, ages, contacts,
record kinds, values, timestamps, medications, reminders, and their
order — and relational `saveAllPatients` then `loadPatients` (which bind
the doubles exactly) reproduces it from any prior database state and any
prior in-memory collection. -/

theorem claim_C1_round_trip (ps : List Patient) (db : DB) (prior : List Patient)
    (hwf : WFCollection ps) (hlen : ps.length ≤ 10000) :
    loadData (some (saveData ps)) [] = ⟨ps, [Msg.loadedOk], false⟩
    ∧ loadPatients (saveAllPatients db ps) prior = ps := by
  refine ⟨?_, loadPatients_saveAllPatients db ps prior⟩
  have h := readCount ps.length ((ps.map patientBlock).flatten)
  simp only [loadData, saveData, h, ignore_cons, int_toNat_cast]
  rw [if_neg (by omega)]
  have hblocks := loadLoop_blocks ps (fun p hp => (hwf p hp).1) 0 [] [] []
  rw [List.append_nil, maps_readBack ps hwf] at hblocks
  rw [show ps.length = ps.length + 0 from rfl, hblocks]
  simp [loadLoop]

theorem claim_C1_witness :
    WFCollection [sampleP, samplePW]
    ∧ ([sampleP, samplePW] : List Patient).length ≤ 10000
    ∧ loadData (some (saveData [sampleP, samplePW])) []
        = ⟨[sampleP, samplePW], [Msg.loadedOk], false⟩
    ∧ loadPatients (saveAllPatients sampleDB [sampleP, samplePW]) [basePatient]
        = [sampleP, samplePW] := by
  have hwf : WFCollection [sampleP, samplePW] := by
    intro p hp
    rcases List.mem_cons.mp hp with h | h
    · rw [h]; decide
    · rcases List.mem_cons.mp h with h2 | h2
      · rw [h2]; exact samplePW_wf
      · simp at h2
  exact ⟨hwf, by decide,
    (claim_C1_round_trip [sampleP, samplePW] sampleDB [basePatient] hwf (by decide)).1,
    (claim_C1_round_trip [sampleP, samplePW] sampleDB [basePatient] hwf (by decide)).2⟩

end MediTrack
